import Mathlib

/-!
# dde-clipboard: the Wayland copy client

A shallow embedding of `dde-clipboard-daemon/waylandcopyclient.cpp`.

Conventions of the embedding:

* `QString` is `String`; `QStringList` is `List String`.
* `QByteArray` is `List UInt8`.
* Functions of the Qt library that the source calls (`QString::toUpper`,
  `QByteArray::toLower`, `QUrl::toEncoded`, the image codecs, ...) are
  arguments of the definitions that call them, so every theorem holds for any
  behaviour of the library.  ASCII instances are given for evaluation.
* `qWarning()` diagnostics only appear where a claim is about them.
* Read tasks are modelled twice: `step` runs a task from start to end with
  nothing in between, and `raceStep` separates a task's read of the shared
  count from its write, so that tasks running at the same time interleave.
-/

namespace DdeClipboard

/-! ## Strings and byte arrays -/

abbrev QByteArray := List UInt8

/-- The conversion `QString::toLatin1` on a string of Latin-1 characters. -/
def toLatin1 (s : String) : QByteArray :=
  s.toList.map (fun c => c.toNat.toUInt8)

/-- The test `QString::contains("/")`. -/
def containsSlash (s : String) : Bool :=
  s.toList.contains '/'

/-- The test `QString::startsWith`. -/
def startsWith (s pre : String) : Bool :=
  pre.toList.isPrefixOf s.toList

/-- An ASCII instance of `QString::toUpper`, used to evaluate examples. -/
def asciiToUpper (s : String) : String :=
  String.mk (s.toList.map Char.toUpper)

/-- An ASCII instance of `toLower`, used to evaluate examples. -/
def asciiToLower (s : String) : String :=
  String.mk (s.toList.map Char.toLower)

/-! ## Values held by a content bag -/

/-- A `QColor` in the RGB model: Qt keeps four 16-bit components; a
default-constructed colour is invalid. -/
structure QColor where
  valid : Bool
  alpha : Nat
  red : Nat
  green : Nat
  blue : Nat
  deriving DecidableEq, Repr

/-- The default-constructed `QColor()`. -/
def QColor.default : QColor := ⟨false, 65535, 0, 0, 0⟩

/-- A `QImage`; it is null when it has no pixels. -/
structure QImage where
  width : Nat
  height : Nat
  pixels : List UInt8
  deriving DecidableEq, Repr

def QImage.isNull (i : QImage) : Bool :=
  i.width == 0 || i.height == 0

/-- The `QVariant` values that occur in the source. -/
inductive QVariant where
  | invalid
  | byteArray (b : QByteArray)
  | color (c : QColor)
  | image (i : QImage)
  deriving DecidableEq, Repr

/-- The test `QVariant::isNull`; the emptiness of a byte array is tested
separately by the source. -/
def QVariant.isNull : QVariant → Bool
  | .invalid => true
  | .byteArray _ => false
  | .color _ => false
  | .image i => i.isNull

/-- The test `data.userType() == QMetaType::QByteArray`. -/
def QVariant.isByteArray : QVariant → Bool
  | .byteArray _ => true
  | _ => false

/-- The conversion `data.toByteArray()` of a byte-array variant. -/
def QVariant.toByteArray : QVariant → QByteArray
  | .byteArray b => b
  | _ => []

/-- The content bag `QMimeData`: the stored entries, format → value. -/
abbrev QMimeData := List (String × QVariant)

/-- The accessor `QMimeData::formats`. -/
def QMimeData.formats (bag : QMimeData) : List String :=
  bag.map Prod.fst

/-- The mutator `QMimeData::setData`: the entry of the format is replaced. -/
def QMimeData.setData (bag : QMimeData) (mimeType : String) (data : QByteArray) :
    QMimeData :=
  bag.filter (fun e => e.1 != mimeType) ++ [(mimeType, QVariant.byteArray data)]

/-- The base-class `QMimeData::retrieveData`: the stored value of the format,
an invalid variant when there is none. -/
def QMimeData.retrieveData (bag : QMimeData) (mimeType : String) : QVariant :=
  match bag.find? (fun e => e.1 == mimeType) with
  | some e => e.2
  | none => QVariant.invalid

/-! ## `imageMimeFormats` and `imageReadMimeFormats` -/

/-- The call `QList::indexOf`: the first index of the value, -1 when absent. -/
def qIndexOf : List String → String → Int
  | [], _ => -1
  | y :: ys, x =>
    if y == x then 0
    else
      let i := qIndexOf ys x
      if i == -1 then -1 else i + 1

/-- The call `QList::move(from, to)`. -/
def qMove (l : List String) (src dst : Nat) : List String :=
  match l[src]? with
  | some x => (l.eraseIdx src).insertIdx dst x
  | none => l

/-- The function `imageMimeFormats`; codec names are Latin-1 text. -/
def imageMimeFormats (toLower : String → String) (imageFormats : List String) :
    List String :=
  let formats := imageFormats.foldl
    (fun formats format => formats ++ ["image/" ++ toLower format]) []
  -- put png at the front because it is best
  let pngIndex := qIndexOf formats "image/png"
  if pngIndex != -1 && pngIndex != 0 then qMove formats pngIndex.toNat 0
  else formats

/-- The function `imageReadMimeFormats`; `readerFormats` is the value of
`QImageReader::supportedImageFormats()`. -/
def imageReadMimeFormats (toLower : String → String) (readerFormats : List String) :
    List String :=
  imageMimeFormats toLower readerFormats

def ApplicationXQtImageLiteral : String := "application/x-qt-image"

/-! ## `getByteArray` -/

abbrev QUrl := String

/-- What the accessors of `QMimeData` return for the bag that `getByteArray`
is given. -/
structure MimeDataView where
  text : String
  hasImage : Bool
  imageData : QVariant
  colorData : QVariant
  urls : List QUrl
  data : String → QByteArray

/-- The cast `qvariant_cast<QImage>`. -/
def castImage : QVariant → QImage
  | .image i => i
  | _ => ⟨0, 0, []⟩

/-- The cast `qvariant_cast<QColor>`. -/
def castColor : QVariant → QColor
  | .color c => c
  | _ => QColor.default

def hexDigit (n : Nat) : Char :=
  "0123456789abcdef".toList.getD (n % 16) '0'

def hex2 (n : Nat) : List Char :=
  [hexDigit (n / 16), hexDigit n]

/-- The function `QColor::name()`: "#rrggbb", the 8-bit channels (the upper
byte of each 16-bit component) in lower-case hexadecimal. -/
def QColor.name (c : QColor) : String :=
  String.mk ('#' :: (hex2 (c.red / 256 % 256) ++ hex2 (c.green / 256 % 256)
    ++ hex2 (c.blue / 256 % 256)))

/-- The call `mimeType.mid(6)`. -/
def mid6 (s : String) : String :=
  String.mk (s.toList.drop 6)

/-- The loop of the "text/uri-list" branch of `getByteArray`. -/
def appendUrls (toEncoded : QUrl → QByteArray) (urls : List QUrl)
    (content : QByteArray) : QByteArray :=
  urls.foldl (fun content url => (content ++ toEncoded url) ++ [10]) content

/-- The function `getByteArray`.  `writerFormats` is the value of
`QImageWriter::supportedImageFormats()` and `imageWrite image fmt` the bytes
that a `QImageWriter` of format `fmt` writes. -/
def getByteArray (toUpper : String → String) (toEncoded : QUrl → QByteArray)
    (writerFormats : List QByteArray) (imageWrite : QImage → QByteArray → QByteArray)
    (mimeData : MimeDataView) (mimeType : String) : QByteArray :=
  if mimeType == "text/plain" then
    mimeData.text.toUTF8.toList
  else if mimeData.hasImage
      && (mimeType == "application/x-qt-image" || startsWith mimeType "image/") then
    let image := castImage mimeData.imageData
    if !image.isNull then
      let fmt : QByteArray := toLatin1 "BMP"
      let fmt :=
        if startsWith mimeType "image/" then
          let imgFmt := toLatin1 (toUpper (mid6 mimeType))
          if writerFormats.contains imgFmt then imgFmt else fmt
        else fmt
      imageWrite image fmt
    else []
  else if mimeType == "application/x-color" then
    toLatin1 (castColor mimeData.colorData).name
  else if mimeType == "text/uri-list" then
    appendUrls toEncoded mimeData.urls []
  else
    mimeData.data mimeType

/-! ## `DMimeData::retrieveData` -/

/-- The `QVariant::Type preferredType` argument. -/
inductive PreferredType where
  | byteArray | image | pixmap | bitmap | color | other
  deriving DecidableEq, Repr

/-- The test `data.isNull() || (data is a byte array && it is empty)`. -/
def nullOrEmpty (data : QVariant) : Bool :=
  data.isNull || (data.isByteArray && data.toByteArray.isEmpty)

/-- The loop of `retrieveData` that looks for an image among the image
formats: `data` is overwritten at each turn, and the loop stops at the first
value that is neither null nor empty. -/
def findImage (bag : QMimeData) : List String → QVariant → QVariant
  | [], data => data
  | f :: fs, _ =>
    let data := bag.retrieveData f
    if nullOrEmpty data then findImage bag fs data else data

/-- The function `qRound` of Qt, in exact arithmetic: `int(d + 0.5)` on the
non-negative numbers, the only ones that the source rounds. -/
def qRound (d : ℚ) : Int :=
  ⌊d + 1 / 2⌋

/-- The function `QColor::setRgbF`, in exact arithmetic: each channel is
scaled to 16 bits.  Channels outside [0, 1], which `retrieveData` never
passes, are taken to invalidate the colour. -/
def QColor.setRgbF (r g b a : ℚ) : QColor :=
  if 0 ≤ r ∧ r ≤ 1 ∧ 0 ≤ g ∧ g ≤ 1 ∧ 0 ≤ b ∧ b ≤ 1 ∧ 0 ≤ a ∧ a ≤ 1 then
    ⟨true, (qRound (a * 65535)).toNat, (qRound (r * 65535)).toNat,
      (qRound (g * 65535)).toNat, (qRound (b * 65535)).toNat⟩
  else QColor.default

/-- The read `colBuf[i]` of a `ushort *` over the bytes of `ba`, on a
little-endian host. -/
def colBuf (ba : QByteArray) (i : Nat) : Nat :=
  (ba.getD (2 * i) 0).toNat + 256 * (ba.getD (2 * i + 1) 0).toNat

/-- The function `DMimeData::retrieveData`; the second component is the list
of `qWarning()` messages.  `imageFormats` is the value of
`imageReadMimeFormats()` and `imageFromData` is `QImage::fromData`. -/
def retrieveData (imageFormats : List String) (imageFromData : QByteArray → QImage)
    (bag : QMimeData) (mimeType : String) (preferredType : PreferredType) :
    QVariant × List String :=
  let data := bag.retrieveData mimeType
  if mimeType == "application/x-qt-image" then
    let data :=
      if nullOrEmpty data then findImage bag imageFormats data else data
    -- we wanted some image type, but all we got was a byte array
    if data.isByteArray
        && (preferredType == .image || preferredType == .pixmap
              || preferredType == .bitmap) then
      (QVariant.image (imageFromData data.toByteArray), [])
    else (data, [])
  else if mimeType == "application/x-color" && data.isByteArray then
    let ba := data.toByteArray
    if ba.length == 8 then
      (QVariant.color (QColor.setRgbF
        ((colBuf ba 0 : ℚ) / 65535) ((colBuf ba 1 : ℚ) / 65535)
        ((colBuf ba 2 : ℚ) / 65535) ((colBuf ba 3 : ℚ) / 65535)), [])
    else (data, ["Qt: Invalid color format"])
  else
    (bag.retrieveData mimeType, [])

/-- The two bytes of a 16-bit component, low byte first. -/
def u16Bytes (k : Nat) : QByteArray :=
  [(k % 256).toUInt8, (k / 256 % 256).toUInt8]

/-- The serialisation of a colour as the specification words it, to compare
with the source: a fixed-width record of four 16-bit components in the order
R, G, B, alpha, each the normalised channel scaled to 0..65535. -/
def specColorRecord (r g b a : ℚ) : QByteArray :=
  u16Bytes (qRound (r * 65535)).toNat ++ u16Bytes (qRound (g * 65535)).toNat
    ++ u16Bytes (qRound (b * 65535)).toNat ++ u16Bytes (qRound (a * 65535)).toNat

/-! ## `WaylandCopyClient::filterMimeType` -/

/-- The condition of the `if` in the loop of `filterMimeType`. -/
def filterKeeps (toUpper : String → String) (mimeType : String) : Bool :=
  (containsSlash mimeType && toUpper mimeType != mimeType)
    || mimeType == "FROM_DEEPIN_CLIPBOARD_MANAGER"
    || mimeType == "TIMESTAMP"

/-- The function `WaylandCopyClient::filterMimeType`: a loop over the input
that appends the kept entries to `tmpList`. -/
def filterMimeType (toUpper : String → String) (mimeTypeList : List String) :
    List String :=
  mimeTypeList.foldl
    (fun tmpList mimeType =>
      if filterKeeps toUpper mimeType then tmpList ++ [mimeType] else tmpList)
    []

/-! ## `WaylandCopyClient`: announcements and read tasks -/

/-- The `DataControlOfferV1` of an announcement. -/
structure DataControlOfferV1 where
  offeredMimeTypes : List String
  deriving DecidableEq, Repr

/-- The state of the client that `onDataOffered` and its read tasks touch:
the pointer `m_mimeData`, the function-local `static int readCount` (one
counter for the whole process), and the number of `dataChanged` emissions. -/
structure WaylandCopyClient where
  m_mimeData : Option QMimeData
  readCount : Int
  dataChanged : Nat
  deriving DecidableEq, Repr

/-- The captures of the lambda given to `QtConcurrent::run`. -/
structure ReadTask where
  offer : DataControlOfferV1
  mimeType : String
  mimeTypeCount : Int
  deriving DecidableEq, Repr

/-- How the pipe of a read task behaves. -/
inductive ReadOutcome where
  /-- The call `pipe(pipeFds)` fails. -/
  | pipeFailed
  /-- The call `readPipe.open` returns false. -/
  | openFailed
  /-- The test `readPipe.isReadable()` is false. -/
  | notReadable
  /-- The call `readPipe.readAll()` returns `data`. -/
  | read (data : QByteArray)
  deriving DecidableEq, Repr

/-- The function `WaylandCopyClient::onDataOffered` up to the spawning of the
read tasks, which it returns in the order of the loop. -/
def onDataOffered (toUpper : String → String) (offer : Option DataControlOfferV1)
    (c : WaylandCopyClient) : WaylandCopyClient × List ReadTask :=
  match offer with
  | none => (c, [])
  | some offer =>
    let mimeTypeList := filterMimeType toUpper offer.offeredMimeTypes
    if mimeTypeList.isEmpty then (c, [])
    else
      -- `if (!m_mimeData) m_mimeData = new DMimeData(); m_mimeData->clear();`
      let c := { c with m_mimeData := some [] }
      let c := { c with readCount := 0 }
      let mimeTypeCount : Int := mimeTypeList.length
      (c, mimeTypeList.map (fun mimeType => ⟨offer, mimeType, mimeTypeCount⟩))

/-- The end of the lambda: `if (++readCount >= mimeTypeCount)` with its body. -/
def completionStep (t : ReadTask) (c : WaylandCopyClient) : WaylandCopyClient :=
  let c := { c with readCount := c.readCount + 1 }
  if c.readCount ≥ t.mimeTypeCount then
    { c with readCount := 0, dataChanged := c.dataChanged + 1 }
  else c

/-- The call `m_mimeData->setData(mimeType, data)` of a read task; the
pointer is not null once `onDataOffered` has spawned the task. -/
def storeData (mimeType : String) (data : QByteArray) (c : WaylandCopyClient) :
    WaylandCopyClient :=
  { c with m_mimeData := c.m_mimeData.map (fun bag => bag.setData mimeType data) }

/-- The lambda of a read task when it runs from its start to its end with no
other task and no announcement in between.  Tasks that run at the same time
are the matter of `raceStep` below. -/
def runReadTask (t : ReadTask) (o : ReadOutcome) (c : WaylandCopyClient) :
    WaylandCopyClient :=
  match o with
  | .pipeFailed => c
  | .openFailed => completionStep t c
  | .notReadable => completionStep t c
  | .read data =>
    if !data.isEmpty then completionStep t (storeData t.mimeType data c)
    else completionStep t c

/-- The client together with the read tasks that were spawned and have not
ended yet. -/
structure System where
  client : WaylandCopyClient
  pending : List ReadTask
  deriving DecidableEq, Repr

/-- What can happen to the client when read tasks run one at a time: an
announcement arrives, or the pending read task of index `i` runs from its
start to its end with the given outcome. -/
inductive Event where
  | dataOffered (offer : Option DataControlOfferV1)
  | taskEnds (i : Nat) (o : ReadOutcome)
  deriving DecidableEq, Repr

def step (toUpper : String → String) (sys : System) : Event → System
  | .dataOffered offer =>
    let r := onDataOffered toUpper offer sys.client
    ⟨r.1, sys.pending ++ r.2⟩
  | .taskEnds i o =>
    match sys.pending[i]? with
    | some t => ⟨runReadTask t o sys.client, sys.pending.eraseIdx i⟩
    | none => sys

def run (toUpper : String → String) (sys : System) (events : List Event) : System :=
  events.foldl (step toUpper) sys

/-- The state of a freshly constructed client: `m_mimeData(new DMimeData())`,
`readCount` zero-initialised, nothing emitted, no task. -/
def initialSystem : System :=
  ⟨⟨some [], 0, 0⟩, []⟩

/-! ## Read tasks that run at the same time

The lambdas run on the threads of the `QtConcurrent` pool.  The source
declares `static QMutex mimeDataLock` and never locks it, so `++readCount` on
the plain `static int` is a read of the count followed, later, by a write of
the value read plus one, and other tasks may run between the two. -/

/-- The lambda of a read task from the pipe to `close(pipeFds[0])`, for an
outcome other than the pipe failure: the data read, when there is some, is
stored in the bag. -/
def readBody (t : ReadTask) (o : ReadOutcome) (c : WaylandCopyClient) :
    WaylandCopyClient :=
  match o with
  | .read data => if !data.isEmpty then storeData t.mimeType data c else c
  | _ => c

/-- The second half of `++readCount >= mimeTypeCount` for a task that has read
the value `v` of the count: it writes `v + 1`, tests it, and on success resets
the count and emits `dataChanged`. -/
def writeBack (t : ReadTask) (v : Int) (c : WaylandCopyClient) : WaylandCopyClient :=
  let c := { c with readCount := v + 1 }
  if c.readCount ≥ t.mimeTypeCount then
    { c with readCount := 0, dataChanged := c.dataChanged + 1 }
  else c

/-- The client, the read tasks that were spawned and have not reached the
counter, and the tasks that have read the count (with the value read) and
have not written it back. -/
structure RaceSystem where
  client : WaylandCopyClient
  pending : List ReadTask
  atCounter : List (ReadTask × Int)
  deriving DecidableEq, Repr

/-- What can happen to the client when tasks run at the same time: an
announcement arrives; the pending task of index `i` runs, with the given
outcome, up to its read of the count (or returns, on a pipe failure); the
task of index `j` among those that have read the count writes it back and
ends. -/
inductive RaceEvent where
  | dataOffered (offer : Option DataControlOfferV1)
  | taskReads (i : Nat) (o : ReadOutcome)
  | taskWrites (j : Nat)
  deriving DecidableEq, Repr

def raceStep (toUpper : String → String) (sys : RaceSystem) : RaceEvent → RaceSystem
  | .dataOffered offer =>
    let r := onDataOffered toUpper offer sys.client
    ⟨r.1, sys.pending ++ r.2, sys.atCounter⟩
  | .taskReads i o =>
    match sys.pending[i]? with
    | some t =>
      if o = ReadOutcome.pipeFailed then
        ⟨sys.client, sys.pending.eraseIdx i, sys.atCounter⟩
      else
        ⟨readBody t o sys.client, sys.pending.eraseIdx i,
          sys.atCounter ++ [(t, (readBody t o sys.client).readCount)]⟩
    | none => sys
  | .taskWrites j =>
    match sys.atCounter[j]? with
    | some p => ⟨writeBack p.1 p.2 sys.client, sys.pending, sys.atCounter.eraseIdx j⟩
    | none => sys

def raceRun (toUpper : String → String) (sys : RaceSystem) (events : List RaceEvent) :
    RaceSystem :=
  events.foldl (raceStep toUpper) sys

/-- The state of a freshly constructed client, no task spawned. -/
def initialRaceSystem : RaceSystem :=
  ⟨⟨some [], 0, 0⟩, [], []⟩

/-- No task of the system is left: none waits to run, none is at the counter. -/
def RaceSystem.idle (sys : RaceSystem) : Bool :=
  sys.pending.isEmpty && sys.atCounter.isEmpty

/-- Every announcement of the list with at least one accepted type arrives
when no read task is left; null announcements and announcements without an
accepted type may arrive at any time. -/
def acceptedWhenIdle (toUpper : String → String) : RaceSystem → List RaceEvent → Bool
  | _, [] => true
  | sys, e :: es =>
    (match e with
      | .dataOffered (some offer) =>
        (filterMimeType toUpper offer.offeredMimeTypes).isEmpty || sys.idle
      | _ => true)
    && acceptedWhenIdle toUpper (raceStep toUpper sys e) es

/-- The increments of the count are serialised: no task reads the count while
another task is between its read and its write. -/
def countSerialised (toUpper : String → String) : RaceSystem → List RaceEvent → Bool
  | _, [] => true
  | sys, e :: es =>
    (match e with
      | .taskReads _ _ => sys.atCounter.isEmpty
      | _ => true)
    && countSerialised toUpper (raceStep toUpper sys e) es

/-- Each task event of the list chooses a task that exists, and no task fails
to create its pipe. -/
def tasksReachCounter (toUpper : String → String) : RaceSystem → List RaceEvent → Bool
  | _, [] => true
  | sys, e :: es =>
    (match e with
      | .dataOffered _ => true
      | .taskReads i o => decide (i < sys.pending.length) && o != ReadOutcome.pipeFailed
      | .taskWrites j => decide (j < sys.atCounter.length))
    && tasksReachCounter toUpper (raceStep toUpper sys e) es

/-- The number of announcements of the list with at least one accepted type. -/
def acceptedAnnouncements (toUpper : String → String) (events : List RaceEvent) : Nat :=
  (events.filter (fun e =>
    match e with
    | .dataOffered (some offer) => !(filterMimeType toUpper offer.offeredMimeTypes).isEmpty
    | _ => false)).length

/-- An announcement is owed its `dataChanged` while one of its tasks is left. -/
def owed (sys : RaceSystem) : Nat :=
  if sys.idle then 0 else 1

/-- The tasks that are left belong to one announcement and are all of its
tasks that have not written the count: the type count of each is the count
plus the number of tasks left; at most one task is at the counter, and it has
read the current count. -/
def CountInv (sys : RaceSystem) : Prop :=
  sys.atCounter.length ≤ 1
  ∧ (∀ p ∈ sys.atCounter, p.2 = sys.client.readCount)
  ∧ (∀ t ∈ sys.pending, t.mimeTypeCount
      = sys.client.readCount + sys.pending.length + sys.atCounter.length)
  ∧ (∀ p ∈ sys.atCounter, p.1.mimeTypeCount
      = sys.client.readCount + sys.pending.length + sys.atCounter.length)

/-! ## `WaylandCopyClient::sendOffer` -/

/-- The function `WaylandCopyClient::sendOffer`: the content types offered on
the new data source, in the order of the `offer` calls; `none` when
`createDataSource` returns null.  `sourceCreated` tells whether it does not. -/
def sendOffer (toLower : String → String) (readerFormats : List String)
    (sourceCreated : Bool) (m_mimeData : QMimeData) : Option (List String) :=
  if !sourceCreated then none
  else
    some (m_mimeData.formats.foldl
      (fun offered format =>
        if ApplicationXQtImageLiteral == format then
          let imageFormats := imageReadMimeFormats toLower readerFormats
          imageFormats.foldl (fun offered f => offered ++ [f]) offered
        else offered ++ [format])
      [])

/-! ## Theorems -/

theorem filterMimeType_loop (toUpper : String → String) (l acc : List String) :
    l.foldl
      (fun tmpList mimeType =>
        if filterKeeps toUpper mimeType then tmpList ++ [mimeType] else tmpList)
      acc
    = acc ++ l.filter (filterKeeps toUpper) := by
  induction l generalizing acc with
  | nil => simp
  | cons x xs ih =>
    simp only [List.foldl_cons, ih, List.filter_cons]
    by_cases h : filterKeeps toUpper x <;> simp [h]

theorem filterKeeps_iff (toUpper : String → String) (e : String) :
    filterKeeps toUpper e = true ↔
      (('/' ∈ e.toList ∧ e ≠ toUpper e)
        ∨ e = "FROM_DEEPIN_CLIPBOARD_MANAGER" ∨ e = "TIMESTAMP") := by
  have hc : e.toList.contains '/' = true ↔ '/' ∈ e.toList := by simp
  simp only [filterKeeps, containsSlash, Bool.or_eq_true, Bool.and_eq_true,
    hc, bne_iff_ne, beq_iff_eq, ne_eq, or_assoc]
  constructor
  · rintro (⟨h1, h2⟩ | h | h)
    · exact Or.inl ⟨h1, fun h => h2 h.symm⟩
    · exact Or.inr (Or.inl h)
    · exact Or.inr (Or.inr h)
  · rintro (⟨h1, h2⟩ | h | h)
    · exact Or.inl ⟨h1, fun h => h2 h.symm⟩
    · exact Or.inr (Or.inl h)
    · exact Or.inr (Or.inr h)

/-- C1: for every upper-casing function and every list of announced types,
`filterMimeType` returns exactly the entries of the input, in their order and
multiplicity, that contain "/" and differ from their upper-cased form, or equal
one of the two control tokens; and the example of the specification evaluates
as stated. -/
theorem C1_filterMimeType_spec :
    (∀ (toUpper : String → String) (l : List String),
      filterMimeType toUpper l
        = l.filter (fun e => decide
            (('/' ∈ e.toList ∧ e ≠ toUpper e)
              ∨ e = "FROM_DEEPIN_CLIPBOARD_MANAGER" ∨ e = "TIMESTAMP")))
    ∧ filterMimeType asciiToUpper
        ["text/plain", "TIMESTAMP", "BADTYPE", "FROM_DEEPIN_CLIPBOARD_MANAGER"]
      = ["text/plain", "TIMESTAMP", "FROM_DEEPIN_CLIPBOARD_MANAGER"] := by
  refine ⟨?_, ?_⟩
  · intro toUpper l
    have h := filterMimeType_loop toUpper l []
    simp only [List.nil_append] at h
    unfold filterMimeType
    rw [h]
    apply List.filter_congr
    intro e _
    by_cases hk : filterKeeps toUpper e = true
    · rw [hk]; exact (decide_eq_true ((filterKeeps_iff toUpper e).mp hk)).symm
    · have hk2 : filterKeeps toUpper e = false := by simpa using hk
      rw [hk2]
      exact (decide_eq_false (fun hc => hk ((filterKeeps_iff toUpper e).mpr hc))).symm
  · decide


/-! ### Announcements -/

theorem onDataOffered_accepted (toUpper : String → String) (offer : DataControlOfferV1)
    (c : WaylandCopyClient)
    (hN : 1 ≤ (filterMimeType toUpper offer.offeredMimeTypes).length) :
    onDataOffered toUpper (some offer) c
      = (⟨some [], 0, c.dataChanged⟩,
          (filterMimeType toUpper offer.offeredMimeTypes).map
            (fun mimeType => ⟨offer, mimeType,
              ((filterMimeType toUpper offer.offeredMimeTypes).length : Int)⟩)) := by
  have hne : (filterMimeType toUpper offer.offeredMimeTypes).isEmpty = false := by
    cases hl : filterMimeType toUpper offer.offeredMimeTypes with
    | nil => rw [hl] at hN; simp at hN
    | cons x xs => rfl
  simp only [onDataOffered, hne, Bool.false_eq_true, if_false]

theorem onDataOffered_rejected (toUpper : String → String) (offer : DataControlOfferV1)
    (c : WaylandCopyClient)
    (h : filterMimeType toUpper offer.offeredMimeTypes = []) :
    onDataOffered toUpper (some offer) c = (c, []) := by
  simp only [onDataOffered, h, List.isEmpty_nil, if_true]

/-! ### Read tasks and the completed-count -/

theorem readBody_readCount (t : ReadTask) (o : ReadOutcome) (c : WaylandCopyClient) :
    (readBody t o c).readCount = c.readCount := by
  cases o with
  | read data =>
    unfold readBody
    by_cases hd : data.isEmpty <;> simp [hd, storeData]
  | pipeFailed => rfl
  | openFailed => rfl
  | notReadable => rfl

theorem readBody_dataChanged (t : ReadTask) (o : ReadOutcome) (c : WaylandCopyClient) :
    (readBody t o c).dataChanged = c.dataChanged := by
  cases o with
  | read data =>
    unfold readBody
    by_cases hd : data.isEmpty <;> simp [hd, storeData]
  | pipeFailed => rfl
  | openFailed => rfl
  | notReadable => rfl

/-- A task that runs with nothing in between is its read of the count
followed at once by its write. -/
theorem runReadTask_eq_read_then_write (t : ReadTask) (o : ReadOutcome)
    (c : WaylandCopyClient) (ho : o ≠ ReadOutcome.pipeFailed) :
    runReadTask t o c = writeBack t (readBody t o c).readCount (readBody t o c) := by
  cases o with
  | pipeFailed => exact absurd rfl ho
  | openFailed => rfl
  | notReadable => rfl
  | read data =>
    unfold runReadTask readBody
    by_cases hd : data.isEmpty
    · simp only [hd, Bool.not_true, Bool.false_eq_true, if_false]; rfl
    · simp only [hd, Bool.not_false, if_true]; rfl

theorem writeBack_last (t : ReadTask) (c : WaylandCopyClient)
    (h : t.mimeTypeCount = c.readCount + 1) :
    (writeBack t c.readCount c).readCount = 0
    ∧ (writeBack t c.readCount c).dataChanged = c.dataChanged + 1 := by
  unfold writeBack
  simp [h]

theorem writeBack_inner (t : ReadTask) (c : WaylandCopyClient)
    (h : c.readCount + 1 < t.mimeTypeCount) :
    (writeBack t c.readCount c).readCount = c.readCount + 1
    ∧ (writeBack t c.readCount c).dataChanged = c.dataChanged := by
  unfold writeBack
  have hn : ¬ (c.readCount + 1 ≥ t.mimeTypeCount) := by omega
  simp [hn]

theorem owed_idle (sys : RaceSystem) (h : sys.idle = true) : owed sys = 0 := by
  simp [owed, h]

theorem owed_busy (sys : RaceSystem) (h : sys.idle = false) : owed sys = 1 := by
  simp [owed, h]

theorem idle_false_of_pending (sys : RaceSystem) (h : 0 < sys.pending.length) :
    sys.idle = false := by
  unfold RaceSystem.idle
  cases hp : sys.pending with
  | nil => rw [hp] at h; simp at h
  | cons x xs => rfl

theorem idle_false_of_atCounter (sys : RaceSystem) (h : 0 < sys.atCounter.length) :
    sys.idle = false := by
  unfold RaceSystem.idle
  cases hp : sys.atCounter with
  | nil => rw [hp] at h; simp at h
  | cons x xs => simp

/-- An announcement that is null or has no accepted type changes nothing. -/
theorem raceStep_rejected (toUpper : String → String) (sys : RaceSystem)
    (offer : Option DataControlOfferV1)
    (h : ∀ o, offer = some o → filterMimeType toUpper o.offeredMimeTypes = []) :
    raceStep toUpper sys (RaceEvent.dataOffered offer) = sys := by
  have h1 : onDataOffered toUpper offer sys.client = (sys.client, []) := by
    cases offer with
    | none => rfl
    | some o => exact onDataOffered_rejected toUpper o sys.client (h o rfl)
  simp only [raceStep, h1, List.append_nil]

/-- An announcement with accepted types that arrives when no task is left. -/
theorem raceStep_accepted (toUpper : String → String) (sys : RaceSystem)
    (offer : DataControlOfferV1) (hidle : sys.idle = true)
    (hN : 1 ≤ (filterMimeType toUpper offer.offeredMimeTypes).length) :
    CountInv (raceStep toUpper sys (RaceEvent.dataOffered (some offer)))
    ∧ (raceStep toUpper sys (RaceEvent.dataOffered (some offer))).client.dataChanged
        = sys.client.dataChanged
    ∧ (raceStep toUpper sys (RaceEvent.dataOffered (some offer))).idle = false := by
  obtain ⟨c, pending, atCounter⟩ := sys
  simp only [RaceSystem.idle, Bool.and_eq_true, List.isEmpty_iff] at hidle
  obtain ⟨hp, ha⟩ := hidle
  subst hp ha
  have hstep : raceStep toUpper ⟨c, [], []⟩ (RaceEvent.dataOffered (some offer))
      = ⟨(onDataOffered toUpper (some offer) c).1,
          (onDataOffered toUpper (some offer) c).2, []⟩ := by
    simp only [raceStep, List.nil_append]
  rw [hstep, onDataOffered_accepted toUpper offer c hN]
  refine ⟨⟨by simp, ?_, ?_, ?_⟩, rfl, ?_⟩
  · intro p hp; simp at hp
  · intro t ht
    simp only [List.mem_map] at ht
    obtain ⟨m, _, rfl⟩ := ht
    simp
  · intro p hp; simp at hp
  · apply idle_false_of_pending
    simp only [List.length_map]
    omega

/-- A task reads the count while no other task is at the counter. -/
theorem raceStep_taskReads (toUpper : String → String) (sys : RaceSystem) (i : Nat)
    (o : ReadOutcome) (hinv : CountInv sys) (hi : i < sys.pending.length)
    (ho : o ≠ ReadOutcome.pipeFailed) (hat : sys.atCounter = []) :
    CountInv (raceStep toUpper sys (RaceEvent.taskReads i o))
    ∧ (raceStep toUpper sys (RaceEvent.taskReads i o)).client.dataChanged
        = sys.client.dataChanged
    ∧ (raceStep toUpper sys (RaceEvent.taskReads i o)).idle = false
    ∧ sys.idle = false := by
  obtain ⟨c, pending, atCounter⟩ := sys
  simp only at hi hat
  subst hat
  obtain ⟨_, _, hpend, _⟩ := hinv
  simp only [List.length_nil, Nat.cast_zero, add_zero] at hpend
  have hstep : raceStep toUpper ⟨c, pending, []⟩ (RaceEvent.taskReads i o)
      = ⟨readBody (pending[i]) o c, pending.eraseIdx i,
          [(pending[i], (readBody (pending[i]) o c).readCount)]⟩ := by
    simp only [raceStep, List.getElem?_eq_getElem hi, if_neg ho, List.nil_append]
  have hlen : (pending.eraseIdx i).length + 1 = pending.length := by
    rw [List.length_eraseIdx, if_pos hi]; omega
  rw [hstep]
  refine ⟨⟨by simp, ?_, ?_, ?_⟩, readBody_dataChanged _ _ _, ?_, ?_⟩
  · intro p hp
    simp only [List.mem_singleton] at hp
    rw [hp]
  · intro t ht
    have hmem : t ∈ pending := List.mem_of_mem_eraseIdx ht
    simp only [readBody_readCount, List.length_singleton]
    rw [hpend t hmem]
    push_cast
    omega
  · intro p hp
    simp only [List.mem_singleton] at hp
    simp only [hp, readBody_readCount, List.length_singleton]
    rw [hpend _ (List.getElem_mem hi)]
    push_cast
    omega
  · exact idle_false_of_atCounter _ (by simp)
  · exact idle_false_of_pending _ (by simpa using (by omega : 0 < pending.length))

/-- The task at the counter writes the count back: it emits when it is the
last task left, and only counts otherwise. -/
theorem raceStep_taskWrites (toUpper : String → String) (sys : RaceSystem) (j : Nat)
    (hinv : CountInv sys) (hj : j < sys.atCounter.length) :
    CountInv (raceStep toUpper sys (RaceEvent.taskWrites j))
    ∧ (raceStep toUpper sys (RaceEvent.taskWrites j)).client.dataChanged
        + owed (raceStep toUpper sys (RaceEvent.taskWrites j))
      = sys.client.dataChanged + owed sys := by
  obtain ⟨c, pending, atCounter⟩ := sys
  obtain ⟨hone, hval, hpend, hcnt⟩ := hinv
  simp only at hj hone hval hpend hcnt
  rcases atCounter with _ | ⟨p, _ | ⟨q, rest⟩⟩
  · simp at hj
  · have hj0 : j = 0 := by simpa using hj
    subst hj0
    have hv : p.2 = c.readCount := hval p (List.mem_singleton_self p)
    have hc : p.1.mimeTypeCount = c.readCount + pending.length + 1 := by
      have := hcnt p (List.mem_singleton_self p)
      simpa using this
    have hstep : raceStep toUpper ⟨c, pending, [p]⟩ (RaceEvent.taskWrites 0)
        = ⟨writeBack p.1 c.readCount c, pending, []⟩ := by
      simp only [raceStep, List.getElem?_cons_zero, hv, List.eraseIdx_cons_zero]
    have hbusy : owed ⟨c, pending, [p]⟩ = 1 :=
      owed_busy _ (idle_false_of_atCounter _ (by simp))
    rw [hstep, hbusy]
    cases hp : pending with
    | nil =>
      rw [hp] at hc
      obtain ⟨hrc, hdc⟩ := writeBack_last p.1 c (by simpa using hc)
      refine ⟨⟨by simp, ?_, ?_, ?_⟩, ?_⟩
      · intro x hx; simp at hx
      · intro x hx; simp at hx
      · intro x hx; simp at hx
      · rw [owed_idle _ (by rfl)]
        show (writeBack p.1 c.readCount c).dataChanged + 0 = c.dataChanged + 1
        rw [hdc]
    | cons x xs =>
      rw [hp] at hc hpend
      have hlt : c.readCount + 1 < p.1.mimeTypeCount := by
        rw [hc]; simp only [List.length_cons]; push_cast; omega
      obtain ⟨hrc, hdc⟩ := writeBack_inner p.1 c hlt
      refine ⟨⟨by simp, ?_, ?_, ?_⟩, ?_⟩
      · intro y hy; simp at hy
      · intro t ht
        show t.mimeTypeCount = (writeBack p.1 c.readCount c).readCount + _ + _
        rw [hrc, hpend t ht]
        simp only [List.length_cons, List.length_nil, List.length_singleton]
        push_cast
        omega
      · intro y hy; simp at hy
      · rw [owed_busy _ (idle_false_of_pending _ (by simp))]
        show (writeBack p.1 c.readCount c).dataChanged + 1 = c.dataChanged + 1
        rw [hdc]
  · simp at hone

/-! ### Several announcements -/

theorem acceptedAnnouncements_cons (toUpper : String → String) (e : RaceEvent)
    (es : List RaceEvent) :
    acceptedAnnouncements toUpper (e :: es)
      = (match e with
          | .dataOffered (some offer) =>
            if (filterMimeType toUpper offer.offeredMimeTypes).isEmpty then 0 else 1
          | _ => 0)
        + acceptedAnnouncements toUpper es := by
  unfold acceptedAnnouncements
  rw [List.filter_cons]
  cases e with
  | taskReads i o => simp
  | taskWrites j => simp
  | dataOffered offer =>
    cases offer with
    | none => simp
    | some offer =>
      by_cases h : (filterMimeType toUpper offer.offeredMimeTypes).isEmpty = true
      · simp [h]
      · simp [h]; omega

/-- When accepted announcements arrive only while no task is left, the
increments are serialised and every task reaches the counter, each accepted
announcement is paid by exactly one emission, when its last task writes. -/
theorem raceRun_accounting (toUpper : String → String) :
    ∀ (events : List RaceEvent) (sys : RaceSystem), CountInv sys →
      acceptedWhenIdle toUpper sys events = true →
      countSerialised toUpper sys events = true →
      tasksReachCounter toUpper sys events = true →
      (raceRun toUpper sys events).client.dataChanged
          + owed (raceRun toUpper sys events)
        = sys.client.dataChanged + owed sys + acceptedAnnouncements toUpper events := by
  intro events
  induction events with
  | nil => intro sys _ _ _ _; rfl
  | cons e es ih =>
    intro sys hinv hacc hser hreach
    have hrun : raceRun toUpper sys (e :: es)
        = raceRun toUpper (raceStep toUpper sys e) es := rfl
    rw [hrun, acceptedAnnouncements_cons]
    simp only [acceptedWhenIdle, Bool.and_eq_true] at hacc
    simp only [countSerialised, Bool.and_eq_true] at hser
    simp only [tasksReachCounter, Bool.and_eq_true] at hreach
    obtain ⟨hacc1, hacc2⟩ := hacc
    obtain ⟨hser1, hser2⟩ := hser
    obtain ⟨hreach1, hreach2⟩ := hreach
    cases e with
    | dataOffered offer =>
      cases offer with
      | none =>
        have hst := raceStep_rejected toUpper sys none (by intro o ho; cases ho)
        rw [hst] at hacc2 hser2 hreach2 ⊢
        rw [ih sys hinv hacc2 hser2 hreach2]
        simp
      | some offer =>
        by_cases hf : (filterMimeType toUpper offer.offeredMimeTypes).isEmpty = true
        · have hst := raceStep_rejected toUpper sys (some offer)
            (by intro o ho; cases ho; exact List.isEmpty_iff.mp hf)
          rw [hst] at hacc2 hser2 hreach2 ⊢
          rw [ih sys hinv hacc2 hser2 hreach2]
          simp [hf]
        · have hidle : sys.idle = true := by
            simp only [Bool.or_eq_true] at hacc1
            rcases hacc1 with h | h
            · exact absurd h hf
            · exact h
          have hN : 1 ≤ (filterMimeType toUpper offer.offeredMimeTypes).length := by
            cases hl : filterMimeType toUpper offer.offeredMimeTypes with
            | nil => rw [hl] at hf; simp at hf
            | cons x xs => simp
          obtain ⟨hinv2, hdc, hbusy⟩ := raceStep_accepted toUpper sys offer hidle hN
          rw [ih _ hinv2 hacc2 hser2 hreach2, hdc, owed_idle sys hidle,
            owed_busy _ hbusy]
          simp [hf]
          omega
    | taskReads i o =>
      simp only [Bool.and_eq_true, decide_eq_true_eq, bne_iff_ne, ne_eq] at hreach1
      have hat : sys.atCounter = [] := List.isEmpty_iff.mp hser1
      obtain ⟨hinv2, hdc, hbusy2, hbusy⟩ :=
        raceStep_taskReads toUpper sys i o hinv hreach1.1 hreach1.2 hat
      rw [ih _ hinv2 hacc2 hser2 hreach2, hdc, owed_busy _ hbusy2, owed_busy _ hbusy]
      simp
    | taskWrites j =>
      simp only [decide_eq_true_eq] at hreach1
      obtain ⟨hinv2, hacct⟩ := raceStep_taskWrites toUpper sys j hinv hreach1
      rw [ih _ hinv2 hacc2 hser2 hreach2, hacct]
      simp

/-- C2, on the code: an announcement with two accepted types whose two read
tasks both read the count (0) before either writes it.  Both tasks reach the
counter and end; each writes 1 and tests 1 against 2, so `dataChanged` is
never emitted and the count is left at 1, not 0.  When the second task reads
the count after the first has written it, `dataChanged` is emitted once and
the count is 0. -/
theorem C2_unlocked_count_loses_an_increment :
    tasksReachCounter asciiToUpper initialRaceSystem
        [RaceEvent.dataOffered (some ⟨["text/plain", "text/html"]⟩),
         RaceEvent.taskReads 0 (ReadOutcome.read [97]),
         RaceEvent.taskReads 0 (ReadOutcome.read [98]),
         RaceEvent.taskWrites 0,
         RaceEvent.taskWrites 0] = true
    ∧ (raceRun asciiToUpper initialRaceSystem
        [RaceEvent.dataOffered (some ⟨["text/plain", "text/html"]⟩),
         RaceEvent.taskReads 0 (ReadOutcome.read [97]),
         RaceEvent.taskReads 0 (ReadOutcome.read [98]),
         RaceEvent.taskWrites 0,
         RaceEvent.taskWrites 0]).idle = true
    ∧ (raceRun asciiToUpper initialRaceSystem
        [RaceEvent.dataOffered (some ⟨["text/plain", "text/html"]⟩),
         RaceEvent.taskReads 0 (ReadOutcome.read [97]),
         RaceEvent.taskReads 0 (ReadOutcome.read [98]),
         RaceEvent.taskWrites 0,
         RaceEvent.taskWrites 0]).client.dataChanged = 0
    ∧ (raceRun asciiToUpper initialRaceSystem
        [RaceEvent.dataOffered (some ⟨["text/plain", "text/html"]⟩),
         RaceEvent.taskReads 0 (ReadOutcome.read [97]),
         RaceEvent.taskReads 0 (ReadOutcome.read [98]),
         RaceEvent.taskWrites 0,
         RaceEvent.taskWrites 0]).client.readCount = 1
    ∧ (raceRun asciiToUpper initialRaceSystem
        [RaceEvent.dataOffered (some ⟨["text/plain", "text/html"]⟩),
         RaceEvent.taskReads 0 (ReadOutcome.read [97]),
         RaceEvent.taskWrites 0,
         RaceEvent.taskReads 0 (ReadOutcome.read [98]),
         RaceEvent.taskWrites 0]).client.dataChanged = 1
    ∧ (raceRun asciiToUpper initialRaceSystem
        [RaceEvent.dataOffered (some ⟨["text/plain", "text/html"]⟩),
         RaceEvent.taskReads 0 (ReadOutcome.read [97]),
         RaceEvent.taskWrites 0,
         RaceEvent.taskReads 0 (ReadOutcome.read [98]),
         RaceEvent.taskWrites 0]).client.readCount = 0 := by
  decide

/-- C3, as stated, fails: the second announcement arrives while one task of
the first is left.  The increments are serialised, every spawned task reaches
the counter and ends, both announcements have two accepted types, and
`dataChanged` is emitted once, not twice. -/
theorem C3_overlapping_announcements_counterexample :
    countSerialised asciiToUpper initialRaceSystem
        [RaceEvent.dataOffered (some ⟨["text/plain", "text/html"]⟩),
         RaceEvent.taskReads 0 (ReadOutcome.read [97]), RaceEvent.taskWrites 0,
         RaceEvent.dataOffered (some ⟨["image/png", "image/bmp"]⟩),
         RaceEvent.taskReads 0 (ReadOutcome.read [98]), RaceEvent.taskWrites 0,
         RaceEvent.taskReads 0 (ReadOutcome.read [99]), RaceEvent.taskWrites 0,
         RaceEvent.taskReads 0 (ReadOutcome.read [100]), RaceEvent.taskWrites 0] = true
    ∧ tasksReachCounter asciiToUpper initialRaceSystem
        [RaceEvent.dataOffered (some ⟨["text/plain", "text/html"]⟩),
         RaceEvent.taskReads 0 (ReadOutcome.read [97]), RaceEvent.taskWrites 0,
         RaceEvent.dataOffered (some ⟨["image/png", "image/bmp"]⟩),
         RaceEvent.taskReads 0 (ReadOutcome.read [98]), RaceEvent.taskWrites 0,
         RaceEvent.taskReads 0 (ReadOutcome.read [99]), RaceEvent.taskWrites 0,
         RaceEvent.taskReads 0 (ReadOutcome.read [100]), RaceEvent.taskWrites 0] = true
    ∧ (raceRun asciiToUpper initialRaceSystem
        [RaceEvent.dataOffered (some ⟨["text/plain", "text/html"]⟩),
         RaceEvent.taskReads 0 (ReadOutcome.read [97]), RaceEvent.taskWrites 0,
         RaceEvent.dataOffered (some ⟨["image/png", "image/bmp"]⟩),
         RaceEvent.taskReads 0 (ReadOutcome.read [98]), RaceEvent.taskWrites 0,
         RaceEvent.taskReads 0 (ReadOutcome.read [99]), RaceEvent.taskWrites 0,
         RaceEvent.taskReads 0 (ReadOutcome.read [100]), RaceEvent.taskWrites 0]).idle
        = true
    ∧ acceptedAnnouncements asciiToUpper
        [RaceEvent.dataOffered (some ⟨["text/plain", "text/html"]⟩),
         RaceEvent.taskReads 0 (ReadOutcome.read [97]), RaceEvent.taskWrites 0,
         RaceEvent.dataOffered (some ⟨["image/png", "image/bmp"]⟩),
         RaceEvent.taskReads 0 (ReadOutcome.read [98]), RaceEvent.taskWrites 0,
         RaceEvent.taskReads 0 (ReadOutcome.read [99]), RaceEvent.taskWrites 0,
         RaceEvent.taskReads 0 (ReadOutcome.read [100]), RaceEvent.taskWrites 0] = 2
    ∧ (raceRun asciiToUpper initialRaceSystem
        [RaceEvent.dataOffered (some ⟨["text/plain", "text/html"]⟩),
         RaceEvent.taskReads 0 (ReadOutcome.read [97]), RaceEvent.taskWrites 0,
         RaceEvent.dataOffered (some ⟨["image/png", "image/bmp"]⟩),
         RaceEvent.taskReads 0 (ReadOutcome.read [98]), RaceEvent.taskWrites 0,
         RaceEvent.taskReads 0 (ReadOutcome.read [99]), RaceEvent.taskWrites 0,
         RaceEvent.taskReads 0 (ReadOutcome.read [100]), RaceEvent.taskWrites 0]
        ).client.dataChanged = 1 := by
  decide

/-- C3, amended: for every sequence of announcements and steps of read tasks
in which every announcement with at least one accepted type arrives when no
read task of an earlier announcement is left, the increments of the count are
serialised, and every spawned task has reached the counter and ended,
`dataChanged` has been emitted exactly once per announcement with at least one
accepted type.  Null announcements and announcements without an accepted type
may arrive at any time. -/
theorem C3_dataChanged_once_per_announcement_without_overlap
    (toUpper : String → String) (c : WaylandCopyClient) (events : List RaceEvent)
    (hacc : acceptedWhenIdle toUpper ⟨c, [], []⟩ events = true)
    (hser : countSerialised toUpper ⟨c, [], []⟩ events = true)
    (hreach : tasksReachCounter toUpper ⟨c, [], []⟩ events = true)
    (hend : (raceRun toUpper ⟨c, [], []⟩ events).idle = true) :
    (raceRun toUpper ⟨c, [], []⟩ events).client.dataChanged
      = c.dataChanged + acceptedAnnouncements toUpper events := by
  have hinv : CountInv ⟨c, [], []⟩ := by
    refine ⟨by simp, ?_, ?_, ?_⟩ <;> intro x hx <;> simp at hx
  have h := raceRun_accounting toUpper events ⟨c, [], []⟩ hinv hacc hser hreach
  rw [owed_idle _ hend, owed_idle ⟨c, [], []⟩ rfl] at h
  simpa using h

/-- C3, amended, at two announcements of two accepted types each; a null
announcement and an announcement without accepted type arrive while tasks of
the first are left, one of them between the read and the write of a task. -/
theorem C3_dataChanged_once_per_announcement_without_overlap_witness :
    (raceRun asciiToUpper ⟨⟨some [], 0, 0⟩, [], []⟩
        [RaceEvent.dataOffered (some ⟨["text/plain", "text/html"]⟩),
         RaceEvent.taskReads 1 (ReadOutcome.read [97]),
         RaceEvent.dataOffered none,
         RaceEvent.taskWrites 0,
         RaceEvent.dataOffered (some ⟨["TARGETS"]⟩),
         RaceEvent.taskReads 0 ReadOutcome.notReadable,
         RaceEvent.taskWrites 0,
         RaceEvent.dataOffered (some ⟨["image/png", "image/bmp"]⟩),
         RaceEvent.taskReads 0 (ReadOutcome.read [99]),
         RaceEvent.taskWrites 0,
         RaceEvent.taskReads 0 (ReadOutcome.read []),
         RaceEvent.taskWrites 0]).client.dataChanged
      = 0 + acceptedAnnouncements asciiToUpper
        [RaceEvent.dataOffered (some ⟨["text/plain", "text/html"]⟩),
         RaceEvent.taskReads 1 (ReadOutcome.read [97]),
         RaceEvent.dataOffered none,
         RaceEvent.taskWrites 0,
         RaceEvent.dataOffered (some ⟨["TARGETS"]⟩),
         RaceEvent.taskReads 0 ReadOutcome.notReadable,
         RaceEvent.taskWrites 0,
         RaceEvent.dataOffered (some ⟨["image/png", "image/bmp"]⟩),
         RaceEvent.taskReads 0 (ReadOutcome.read [99]),
         RaceEvent.taskWrites 0,
         RaceEvent.taskReads 0 (ReadOutcome.read []),
         RaceEvent.taskWrites 0] :=
  C3_dataChanged_once_per_announcement_without_overlap asciiToUpper ⟨some [], 0, 0⟩ _
    (by decide) (by decide) (by decide) (by decide)

/-- C4: a null announcement, and an announcement none of whose types is
accepted, spawns no read task and leaves the client as it is: the bag pointer
and the entries of the bag, the completed-count and the number of
`dataChanged` emissions. -/
theorem C4_rejected_announcement_is_ignored (toUpper : String → String)
    (offer : Option DataControlOfferV1) (c : WaylandCopyClient)
    (h : ∀ o, offer = some o → filterMimeType toUpper o.offeredMimeTypes = []) :
    onDataOffered toUpper offer c = (c, [])
    ∧ ∀ pending, step toUpper ⟨c, pending⟩ (Event.dataOffered offer) = ⟨c, pending⟩ := by
  have h1 : onDataOffered toUpper offer c = (c, []) := by
    cases offer with
    | none => rfl
    | some o => exact onDataOffered_rejected toUpper o c (h o rfl)
  refine ⟨h1, fun pending => ?_⟩
  simp only [step, h1, List.append_nil]

/-- C4, at an announcement of two upper-case tokens and a client that holds
one entry and has counted one read. -/
theorem C4_rejected_announcement_is_ignored_witness :
    onDataOffered asciiToUpper (some ⟨["TARGETS", "BADTYPE"]⟩)
        ⟨some [("text/plain", QVariant.byteArray [104, 105])], 1, 3⟩
      = (⟨some [("text/plain", QVariant.byteArray [104, 105])], 1, 3⟩, [])
    ∧ ∀ pending, step asciiToUpper
        ⟨⟨some [("text/plain", QVariant.byteArray [104, 105])], 1, 3⟩, pending⟩
        (Event.dataOffered (some ⟨["TARGETS", "BADTYPE"]⟩))
      = ⟨⟨some [("text/plain", QVariant.byteArray [104, 105])], 1, 3⟩, pending⟩ :=
  C4_rejected_announcement_is_ignored asciiToUpper (some ⟨["TARGETS", "BADTYPE"]⟩)
    ⟨some [("text/plain", QVariant.byteArray [104, 105])], 1, 3⟩
    (by intro o ho; cases ho; decide)

/-- C5, on the code: a task whose pipe cannot be opened or read stores nothing
and runs the step on the counter, but a task whose pipe cannot be created
returns before that step.  An announcement of one accepted type whose task
fails to create its pipe ends with no pending task and no `dataChanged`,
while the two other failures emit it. -/
theorem C5_pipe_failure_skips_completion_count :
    (∀ t c, runReadTask t ReadOutcome.openFailed c = completionStep t c
        ∧ (runReadTask t ReadOutcome.openFailed c).m_mimeData = c.m_mimeData)
    ∧ (∀ t c, runReadTask t ReadOutcome.notReadable c = completionStep t c
        ∧ (runReadTask t ReadOutcome.notReadable c).m_mimeData = c.m_mimeData)
    ∧ (∀ t c, runReadTask t ReadOutcome.pipeFailed c = c)
    ∧ (run asciiToUpper initialSystem
        [Event.dataOffered (some ⟨["text/plain"]⟩),
         Event.taskEnds 0 ReadOutcome.pipeFailed]).pending = []
    ∧ (run asciiToUpper initialSystem
        [Event.dataOffered (some ⟨["text/plain"]⟩),
         Event.taskEnds 0 ReadOutcome.pipeFailed]).client.dataChanged = 0
    ∧ (run asciiToUpper initialSystem
        [Event.dataOffered (some ⟨["text/plain"]⟩),
         Event.taskEnds 0 ReadOutcome.openFailed]).client.dataChanged = 1
    ∧ (run asciiToUpper initialSystem
        [Event.dataOffered (some ⟨["text/plain"]⟩),
         Event.taskEnds 0 ReadOutcome.notReadable]).client.dataChanged = 1 := by
  refine ⟨fun t c => ⟨rfl, ?_⟩, fun t c => ⟨rfl, ?_⟩, fun _ _ => rfl,
    by decide, by decide, by decide, by decide⟩
  · show (completionStep t c).m_mimeData = c.m_mimeData
    unfold completionStep
    by_cases h : c.readCount + 1 ≥ t.mimeTypeCount <;> simp [h]
  · show (completionStep t c).m_mimeData = c.m_mimeData
    unfold completionStep
    by_cases h : c.readCount + 1 ≥ t.mimeTypeCount <;> simp [h]


/-! ### The colour type -/

theorem getByteArray_color (toUpper : String → String) (toEncoded : QUrl → QByteArray)
    (writerFormats : List QByteArray) (imageWrite : QImage → QByteArray → QByteArray)
    (mimeData : MimeDataView) :
    getByteArray toUpper toEncoded writerFormats imageWrite mimeData "application/x-color"
      = toLatin1 (castColor mimeData.colorData).name := by
  have h1 : ("application/x-color" == "text/plain") = false := by decide
  have h2 : ("application/x-color" == "application/x-qt-image") = false := by decide
  have h3 : startsWith "application/x-color" "image/" = false := by decide
  simp only [getByteArray, h1, h2, h3, Bool.or_false, Bool.and_false,
    Bool.false_eq_true, if_false, beq_self_eq_true, if_true]

theorem name_length (c : QColor) : (toLatin1 c.name).length = 7 := by
  simp [toLatin1, QColor.name, hex2]

theorem retrieveData_setData (bag : QMimeData) (mimeType : String) (data : QByteArray) :
    (bag.setData mimeType data).retrieveData mimeType = QVariant.byteArray data := by
  have hnone : (bag.filter (fun e => e.1 != mimeType)).find?
      (fun e => e.1 == mimeType) = none := by
    rw [List.find?_eq_none]
    intro e he
    have := (List.mem_filter.mp he).2
    simpa using this
  simp [QMimeData.retrieveData, QMimeData.setData, List.find?_append, hnone]

/-- A stored colour payload whose length is not 8 is returned as it is, with
the warning. -/
theorem retrieveData_color_bad_length (imageFormats : List String)
    (imageFromData : QByteArray → QImage) (bag : QMimeData) (ba : QByteArray)
    (preferredType : PreferredType)
    (hbag : bag.retrieveData "application/x-color" = QVariant.byteArray ba)
    (hlen : ba.length ≠ 8) :
    retrieveData imageFormats imageFromData bag "application/x-color" preferredType
      = (QVariant.byteArray ba, ["Qt: Invalid color format"]) := by
  have h1 : ("application/x-color" == "application/x-qt-image") = false := by decide
  have h2 : (ba.length == 8) = false := by simpa using hlen
  simp only [retrieveData, h1, hbag, QVariant.isByteArray, QVariant.toByteArray, h2,
    Bool.false_eq_true, if_false, beq_self_eq_true, Bool.and_self, if_true]

/-- A stored colour payload of 8 bytes is decoded into a colour. -/
theorem retrieveData_color_length_8 (imageFormats : List String)
    (imageFromData : QByteArray → QImage) (bag : QMimeData) (ba : QByteArray)
    (preferredType : PreferredType)
    (hbag : bag.retrieveData "application/x-color" = QVariant.byteArray ba)
    (hlen : ba.length = 8) :
    retrieveData imageFormats imageFromData bag "application/x-color" preferredType
      = (QVariant.color (QColor.setRgbF
          ((colBuf ba 0 : ℚ) / 65535) ((colBuf ba 1 : ℚ) / 65535)
          ((colBuf ba 2 : ℚ) / 65535) ((colBuf ba 3 : ℚ) / 65535)), []) := by
  have h1 : ("application/x-color" == "application/x-qt-image") = false := by decide
  have h2 : (ba.length == 8) = true := by simpa using hlen
  simp only [retrieveData, h1, hbag, QVariant.isByteArray, QVariant.toByteArray, h2,
    Bool.false_eq_true, if_false, beq_self_eq_true, Bool.and_self, if_true]

theorem qRound_scaled_bounds (x : ℚ) (h0 : 0 ≤ x) (h1 : x ≤ 1) :
    0 ≤ qRound (x * 65535) ∧ qRound (x * 65535) ≤ 65535 := by
  have hd : (0 : ℚ) ≤ x * 65535 := by positivity
  unfold qRound
  constructor
  · apply Int.floor_nonneg.mpr; linarith
  · have : ⌊x * 65535 + 1 / 2⌋ < 65536 := by
      rw [Int.floor_lt]; push_cast; linarith
    omega

theorem qRound_component (k : ℕ) : qRound ((k : ℚ) / 65535 * 65535) = k := by
  have hk : (k : ℚ) / 65535 * 65535 = k := by field_simp
  have h0 : (0 : ℚ) ≤ (k : ℚ) := Nat.cast_nonneg k
  rw [hk]
  unfold qRound
  rw [Int.floor_eq_iff]
  constructor
  · push_cast; linarith
  · push_cast; linarith

theorem setRgbF_components (kr kg kb ka : ℕ) (hr : kr ≤ 65535) (hg : kg ≤ 65535)
    (hb : kb ≤ 65535) (ha : ka ≤ 65535) :
    QColor.setRgbF ((kr : ℚ) / 65535) ((kg : ℚ) / 65535) ((kb : ℚ) / 65535)
        ((ka : ℚ) / 65535)
      = ⟨true, ka, kr, kg, kb⟩ := by
  have hle : ∀ k : ℕ, k ≤ 65535 → (0 : ℚ) ≤ (k : ℚ) / 65535 ∧ (k : ℚ) / 65535 ≤ 1 := by
    intro k hk
    have h1 : (k : ℚ) ≤ 65535 := by exact_mod_cast hk
    have h0 : (0 : ℚ) ≤ (k : ℚ) := Nat.cast_nonneg k
    constructor
    · positivity
    · rw [div_le_one (by norm_num)]; exact h1
  unfold QColor.setRgbF
  rw [if_pos ⟨(hle kr hr).1, (hle kr hr).2, (hle kg hg).1, (hle kg hg).2,
    (hle kb hb).1, (hle kb hb).2, (hle ka ha).1, (hle ka ha).2⟩]
  simp only [qRound_component, Int.toNat_ofNat]

theorem colBuf_specColorRecord (k0 k1 k2 k3 : ℕ) :
    colBuf (u16Bytes k0 ++ u16Bytes k1 ++ u16Bytes k2 ++ u16Bytes k3) 0 = k0 % 65536
    ∧ colBuf (u16Bytes k0 ++ u16Bytes k1 ++ u16Bytes k2 ++ u16Bytes k3) 1 = k1 % 65536
    ∧ colBuf (u16Bytes k0 ++ u16Bytes k1 ++ u16Bytes k2 ++ u16Bytes k3) 2 = k2 % 65536
    ∧ colBuf (u16Bytes k0 ++ u16Bytes k1 ++ u16Bytes k2 ++ u16Bytes k3) 3 = k3 % 65536 := by
  have hb : ∀ n : ℕ, (n.toUInt8).toNat = n % 256 := by
    intro n; simp [Nat.toUInt8, UInt8.ofNat, UInt8.toNat]
  simp only [colBuf, u16Bytes, List.cons_append, List.nil_append, List.getD_cons_zero,
    List.getD_cons_succ, hb, Nat.mul_zero, Nat.zero_add, Nat.mul_one, Nat.reduceMul,
    Nat.reduceAdd]
  refine ⟨?_, ?_, ?_, ?_⟩ <;> omega


theorem setRgbF_in_range (r g b a : ℚ) (hr : 0 ≤ r ∧ r ≤ 1) (hg : 0 ≤ g ∧ g ≤ 1)
    (hb : 0 ≤ b ∧ b ≤ 1) (ha : 0 ≤ a ∧ a ≤ 1) :
    QColor.setRgbF r g b a
      = ⟨true, (qRound (a * 65535)).toNat, (qRound (r * 65535)).toNat,
          (qRound (g * 65535)).toNat, (qRound (b * 65535)).toNat⟩ := by
  unfold QColor.setRgbF
  rw [if_pos ⟨hr.1, hr.2, hg.1, hg.2, hb.1, hb.2, ha.1, ha.2⟩]

theorem qRound_scaled_toNat_le (x : ℚ) (h : 0 ≤ x ∧ x ≤ 1) :
    (qRound (x * 65535)).toNat ≤ 65535 := by
  have := qRound_scaled_bounds x h.1 h.2
  omega

/-- A 16-bit component is within the quantisation error of its channel. -/
theorem qRound_scaled_close (x : ℚ) (h0 : 0 ≤ x) :
    |((qRound (x * 65535)).toNat : ℚ) / 65535 - x| ≤ 1 / 65535 := by
  have hd : (0 : ℚ) ≤ x * 65535 := by positivity
  have hq : qRound (x * 65535) = ⌊x * 65535 + 1 / 2⌋ := by
    rfl
  have hnn : 0 ≤ ⌊x * 65535 + 1 / 2⌋ := Int.floor_nonneg.mpr (by linarith)
  have hcast : ((qRound (x * 65535)).toNat : ℚ) = (⌊x * 65535 + 1 / 2⌋ : ℚ) := by
    rw [hq]
    have : ((⌊x * 65535 + 1 / 2⌋.toNat : ℤ) : ℚ) = (⌊x * 65535 + 1 / 2⌋ : ℚ) := by
      rw [Int.toNat_of_nonneg hnn]
    exact_mod_cast this
  have h1 : (⌊x * 65535 + 1 / 2⌋ : ℚ) ≤ x * 65535 + 1 / 2 := Int.floor_le _
  have h2 : x * 65535 + 1 / 2 < (⌊x * 65535 + 1 / 2⌋ : ℚ) + 1 := Int.lt_floor_add_one _
  rw [hcast, abs_le]
  have hy : (⌊x * 65535 + 1 / 2⌋ : ℚ) / 65535 * 65535 = (⌊x * 65535 + 1 / 2⌋ : ℚ) := by
    field_simp
  constructor <;> linarith

/-- The bytes of the resolver for colour (1.0, 0.5, 0.0, 1.0). -/
theorem setRgbF_example :
    QColor.setRgbF 1 (1 / 2) 0 1 = ⟨true, 65535, 65535, 32768, 0⟩ := by
  rw [setRgbF_in_range 1 (1 / 2) 0 1 (by norm_num) (by norm_num) (by norm_num)
    (by norm_num)]
  have e1 : qRound (1 * 65535) = 65535 := by
    have := qRound_component 65535
    norm_num at this ⊢
    exact this
  have e2 : qRound (1 / 2 * 65535) = 32768 := by
    unfold qRound
    rw [Int.floor_eq_iff]
    constructor <;> norm_num
  have e3 : qRound (0 * 65535) = 0 := by
    have := qRound_component 0
    norm_num at this ⊢
    exact this
  rw [e1, e2, e3]
  rfl

/-- C6, as stated, fails at the colour (R=1.0, G=0.5, B=0.0, A=1.0): the
resolver produces the seven characters "#ff8000", not an 8-byte record, and
`retrieveData` does not decode these bytes into a colour: it warns and returns
them. -/
theorem C6_color_resolver_counterexample :
    getByteArray asciiToUpper toLatin1 [] (fun _ _ => [])
        ⟨"", false, QVariant.invalid, QVariant.color (QColor.setRgbF 1 (1 / 2) 0 1), [],
          fun _ => []⟩
        "application/x-color"
      = toLatin1 "#ff8000"
    ∧ (toLatin1 "#ff8000").length = 7
    ∧ retrieveData [] (fun _ => ⟨0, 0, []⟩)
        (QMimeData.setData [] "application/x-color" (toLatin1 "#ff8000"))
        "application/x-color" PreferredType.color
      = (QVariant.byteArray (toLatin1 "#ff8000"), ["Qt: Invalid color format"]) := by
  refine ⟨?_, by decide, ?_⟩
  · rw [getByteArray_color, setRgbF_example]
    decide
  · exact retrieveData_color_bad_length _ _ _ _ _ (retrieveData_setData _ _ _)
      (by decide)

/-- C6, amended: for every colour with channels in [0, 1], the bytes that
`getByteArray` produces for "application/x-color" are the seven Latin-1
characters of `QColor::name()`, "#rrggbb", which `retrieveData` does not
decode (it warns and returns them); `retrieveData` decodes the 8-byte record
of four 16-bit components in the order R, G, B, alpha, each the channel scaled
to 0..65535, into the same colour, whose 16-bit components are within 1/65535
of the channels.  Arithmetic on channels is exact. -/
theorem C6_color_name_and_record (toUpper : String → String)
    (toEncoded : QUrl → QByteArray) (writerFormats : List QByteArray)
    (imageWrite : QImage → QByteArray → QByteArray) (mimeData : MimeDataView)
    (imageFormats : List String) (imageFromData : QByteArray → QImage)
    (bag : QMimeData) (preferredType : PreferredType) (r g b a : ℚ)
    (hr : 0 ≤ r ∧ r ≤ 1) (hg : 0 ≤ g ∧ g ≤ 1) (hb : 0 ≤ b ∧ b ≤ 1)
    (ha : 0 ≤ a ∧ a ≤ 1) :
    getByteArray toUpper toEncoded writerFormats imageWrite
        { mimeData with colorData := QVariant.color (QColor.setRgbF r g b a) }
        "application/x-color"
      = toLatin1 (QColor.setRgbF r g b a).name
    ∧ (toLatin1 (QColor.setRgbF r g b a).name).length = 7
    ∧ retrieveData imageFormats imageFromData
        (bag.setData "application/x-color" (toLatin1 (QColor.setRgbF r g b a).name))
        "application/x-color" preferredType
      = (QVariant.byteArray (toLatin1 (QColor.setRgbF r g b a).name),
          ["Qt: Invalid color format"])
    ∧ (specColorRecord r g b a).length = 8
    ∧ retrieveData imageFormats imageFromData
        (bag.setData "application/x-color" (specColorRecord r g b a))
        "application/x-color" preferredType
      = (QVariant.color (QColor.setRgbF r g b a), [])
    ∧ |((QColor.setRgbF r g b a).red : ℚ) / 65535 - r| ≤ 1 / 65535
    ∧ |((QColor.setRgbF r g b a).green : ℚ) / 65535 - g| ≤ 1 / 65535
    ∧ |((QColor.setRgbF r g b a).blue : ℚ) / 65535 - b| ≤ 1 / 65535
    ∧ |((QColor.setRgbF r g b a).alpha : ℚ) / 65535 - a| ≤ 1 / 65535 := by
  have hlen8 : (specColorRecord r g b a).length = 8 := by
    simp [specColorRecord, u16Bytes]
  have hkr := qRound_scaled_toNat_le r hr
  have hkg := qRound_scaled_toNat_le g hg
  have hkb := qRound_scaled_toNat_le b hb
  have hka := qRound_scaled_toNat_le a ha
  refine ⟨?_, name_length _, ?_, hlen8, ?_, ?_, ?_, ?_, ?_⟩
  · rw [getByteArray_color]; rfl
  · exact retrieveData_color_bad_length _ _ _ _ _ (retrieveData_setData _ _ _)
      (by rw [name_length]; decide)
  · rw [retrieveData_color_length_8 _ _ _ _ _ (retrieveData_setData _ _ _) hlen8]
    obtain ⟨c0, c1, c2, c3⟩ := colBuf_specColorRecord (qRound (r * 65535)).toNat
      (qRound (g * 65535)).toNat (qRound (b * 65535)).toNat (qRound (a * 65535)).toNat
    unfold specColorRecord
    rw [c0, c1, c2, c3, Nat.mod_eq_of_lt (by omega), Nat.mod_eq_of_lt (by omega),
      Nat.mod_eq_of_lt (by omega), Nat.mod_eq_of_lt (by omega),
      setRgbF_components _ _ _ _ hkr hkg hkb hka, setRgbF_in_range r g b a hr hg hb ha]
  · rw [setRgbF_in_range r g b a hr hg hb ha]; exact qRound_scaled_close r hr.1
  · rw [setRgbF_in_range r g b a hr hg hb ha]; exact qRound_scaled_close g hg.1
  · rw [setRgbF_in_range r g b a hr hg hb ha]; exact qRound_scaled_close b hb.1
  · rw [setRgbF_in_range r g b a hr hg hb ha]; exact qRound_scaled_close a ha.1

/-- C6, amended, at the colour (R=1.0, G=0.5, B=0.0, A=1.0): the 8-byte record
is decoded into the colour. -/
theorem C6_color_name_and_record_witness :
    retrieveData [] (fun _ => ⟨0, 0, []⟩)
        (QMimeData.setData [] "application/x-color" (specColorRecord 1 (1 / 2) 0 1))
        "application/x-color" PreferredType.color
      = (QVariant.color (QColor.setRgbF 1 (1 / 2) 0 1), []) :=
  (C6_color_name_and_record asciiToUpper toLatin1 [] (fun _ _ => [])
    ⟨"", false, QVariant.invalid, QVariant.invalid, [], fun _ => []⟩
    [] (fun _ => ⟨0, 0, []⟩) [] PreferredType.color 1 (1 / 2) 0 1
    (by norm_num) (by norm_num) (by norm_num) (by norm_num)).2.2.2.2.1


/-- C7, as stated, fails at the stored 3-byte payload 1, 2, 3: `retrieveData`
returns the payload itself, which is neither null nor empty. -/
theorem C7_malformed_color_counterexample :
    retrieveData [] (fun _ => ⟨0, 0, []⟩)
        (QMimeData.setData [] "application/x-color" [1, 2, 3])
        "application/x-color" PreferredType.color
      = (QVariant.byteArray [1, 2, 3], ["Qt: Invalid color format"])
    ∧ nullOrEmpty (retrieveData [] (fun _ => ⟨0, 0, []⟩)
        (QMimeData.setData [] "application/x-color" [1, 2, 3])
        "application/x-color" PreferredType.color).1 = false := by
  have h := retrieveData_color_bad_length [] (fun _ => ⟨0, 0, []⟩)
    (QMimeData.setData [] "application/x-color" [1, 2, 3]) [1, 2, 3]
    PreferredType.color (retrieveData_setData _ _ _) (by decide)
  refine ⟨h, ?_⟩
  rw [h]
  decide

/-- C7, amended: for every stored "application/x-color" byte payload whose
length is not 8, `retrieveData` warns "Invalid color format", produces no
colour and returns the stored payload unchanged; a payload is decoded into a
colour exactly when it has 8 bytes. -/
theorem C7_malformed_color_is_returned_unchanged (imageFormats : List String)
    (imageFromData : QByteArray → QImage) (bag : QMimeData) (ba : QByteArray)
    (preferredType : PreferredType)
    (hbag : bag.retrieveData "application/x-color" = QVariant.byteArray ba) :
    (ba.length ≠ 8 →
      retrieveData imageFormats imageFromData bag "application/x-color" preferredType
        = (QVariant.byteArray ba, ["Qt: Invalid color format"]))
    ∧ ((∃ c, (retrieveData imageFormats imageFromData bag "application/x-color"
          preferredType).1 = QVariant.color c) ↔ ba.length = 8) := by
  refine ⟨fun h => retrieveData_color_bad_length _ _ _ _ _ hbag h, ?_, ?_⟩
  · rintro ⟨c, hc⟩
    by_contra hne
    rw [retrieveData_color_bad_length _ _ _ _ _ hbag hne] at hc
    cases hc
  · intro h
    rw [retrieveData_color_length_8 _ _ _ _ _ hbag h]
    exact ⟨_, rfl⟩

/-- C7, amended, at the stored 3-byte payload 1, 2, 3. -/
theorem C7_malformed_color_is_returned_unchanged_witness :
    retrieveData ["image/png"] (fun _ => ⟨0, 0, []⟩)
        [("application/x-color", QVariant.byteArray [1, 2, 3])]
        "application/x-color" PreferredType.color
      = (QVariant.byteArray [1, 2, 3], ["Qt: Invalid color format"]) :=
  (C7_malformed_color_is_returned_unchanged ["image/png"] (fun _ => ⟨0, 0, []⟩)
    [("application/x-color", QVariant.byteArray [1, 2, 3])] [1, 2, 3]
    PreferredType.color (by decide)).1 (by decide)

/-! ### The URI list -/

theorem appendUrls_eq (toEncoded : QUrl → QByteArray) (urls : List QUrl)
    (content : QByteArray) :
    appendUrls toEncoded urls content
      = content ++ (urls.map (fun u => toEncoded u ++ [10])).flatten := by
  unfold appendUrls
  induction urls generalizing content with
  | nil => simp
  | cons u us ih =>
    rw [List.foldl_cons, ih]
    simp only [List.map_cons, List.flatten_cons, List.append_assoc]

theorem getByteArray_uriList (toUpper : String → String) (toEncoded : QUrl → QByteArray)
    (writerFormats : List QByteArray) (imageWrite : QImage → QByteArray → QByteArray)
    (mimeData : MimeDataView) :
    getByteArray toUpper toEncoded writerFormats imageWrite mimeData "text/uri-list"
      = appendUrls toEncoded mimeData.urls [] := by
  have h1 : ("text/uri-list" == "text/plain") = false := by decide
  have h2 : ("text/uri-list" == "application/x-qt-image") = false := by decide
  have h3 : startsWith "text/uri-list" "image/" = false := by decide
  have h4 : ("text/uri-list" == "application/x-color") = false := by decide
  simp only [getByteArray, h1, h2, h3, h4, Bool.or_false, Bool.and_false,
    Bool.false_eq_true, if_false, beq_self_eq_true, if_true]

theorem count_newline_urls (toEncoded : QUrl → QByteArray) (urls : List QUrl)
    (h : ∀ u ∈ urls, (10 : UInt8) ∉ toEncoded u) :
    ((urls.map (fun u => toEncoded u ++ [10])).flatten).count 10 = urls.length := by
  induction urls with
  | nil => rfl
  | cons u us ih =>
    have hu : (toEncoded u).count 10 = 0 :=
      List.count_eq_zero.mpr (h u (List.mem_cons_self u us))
    have ih2 := ih (fun v hv => h v (List.mem_cons_of_mem u hv))
    simp only [List.map_cons, List.flatten_cons, List.count_append, hu, ih2,
      List.length_cons, List.count_cons_self, List.count_nil]
    omega

/-- C8: for every list of URIs that the bag reports, `getByteArray` for
"text/uri-list" returns the concatenation, in list order, of each URI's
encoded form followed by one newline byte, also after the last; the result is
empty for the empty list, and when no encoded form contains a newline it has
exactly as many newlines as there are URIs. -/
theorem C8_uri_list_join (toUpper : String → String) (toEncoded : QUrl → QByteArray)
    (writerFormats : List QByteArray) (imageWrite : QImage → QByteArray → QByteArray)
    (mimeData : MimeDataView) :
    getByteArray toUpper toEncoded writerFormats imageWrite mimeData "text/uri-list"
      = (mimeData.urls.map (fun u => toEncoded u ++ [10])).flatten
    ∧ getByteArray toUpper toEncoded writerFormats imageWrite
        { mimeData with urls := [] } "text/uri-list" = []
    ∧ ((∀ u ∈ mimeData.urls, (10 : UInt8) ∉ toEncoded u) →
        (getByteArray toUpper toEncoded writerFormats imageWrite mimeData
          "text/uri-list").count 10 = mimeData.urls.length) := by
  have h : getByteArray toUpper toEncoded writerFormats imageWrite mimeData
      "text/uri-list" = (mimeData.urls.map (fun u => toEncoded u ++ [10])).flatten := by
    rw [getByteArray_uriList, appendUrls_eq, List.nil_append]
  refine ⟨h, ?_, fun hn => ?_⟩
  · rw [getByteArray_uriList]; rfl
  · rw [h]; exact count_newline_urls toEncoded mimeData.urls hn

/-- C8, at the URIs "file:///a" and "file:///b": the resolved bytes are
"file:///a\nfile:///b\n", with two newlines. -/
theorem C8_uri_list_join_witness :
    getByteArray asciiToUpper toLatin1 [] (fun _ _ => [])
        ⟨"", false, QVariant.invalid, QVariant.invalid, ["file:///a", "file:///b"],
          fun _ => []⟩ "text/uri-list"
      = toLatin1 "file:///a\nfile:///b\n"
    ∧ (getByteArray asciiToUpper toLatin1 [] (fun _ _ => [])
        ⟨"", false, QVariant.invalid, QVariant.invalid, ["file:///a", "file:///b"],
          fun _ => []⟩ "text/uri-list").count 10 = 2 :=
  ⟨(C8_uri_list_join asciiToUpper toLatin1 [] (fun _ _ => [])
      ⟨"", false, QVariant.invalid, QVariant.invalid, ["file:///a", "file:///b"],
        fun _ => []⟩).1.trans (by decide),
   (C8_uri_list_join asciiToUpper toLatin1 [] (fun _ _ => [])
      ⟨"", false, QVariant.invalid, QVariant.invalid, ["file:///a", "file:///b"],
        fun _ => []⟩).2.2 (by decide)⟩


/-! ### Image formats and the advertised types -/

theorem formats_loop (toLower : String → String) (imageFormats acc : List String) :
    imageFormats.foldl
        (fun formats format => formats ++ ["image/" ++ toLower format]) acc
      = acc ++ imageFormats.map (fun f => "image/" ++ toLower f) := by
  induction imageFormats generalizing acc with
  | nil => simp
  | cons f fs ih =>
    rw [List.foldl_cons, ih]
    simp only [List.map_cons, List.append_assoc, List.singleton_append]

theorem qIndexOf_of_not_mem (l : List String) (x : String) (h : x ∉ l) :
    qIndexOf l x = -1 := by
  induction l with
  | nil => rfl
  | cons y ys ih =>
    have hyx : (y == x) = false := by
      have : y ≠ x := fun e => h (by rw [e]; exact List.mem_cons_self x ys)
      simpa using this
    have ih2 := ih (fun hm => h (List.mem_cons_of_mem y hm))
    simp only [qIndexOf, hyx, ih2, Bool.false_eq_true, if_false, beq_self_eq_true, if_true]

theorem qIndexOf_of_mem (l : List String) (x : String) (h : x ∈ l) :
    ∃ n : ℕ, qIndexOf l x = (n : Int) ∧ l[n]? = some x ∧ l.eraseIdx n = l.erase x := by
  induction l with
  | nil => simp at h
  | cons y ys ih =>
    by_cases hyx : y = x
    · subst hyx
      refine ⟨0, ?_, ?_, ?_⟩
      · simp [qIndexOf]
      · simp
      · simp
    · have hb : (y == x) = false := by simpa using hyx
      have hmem : x ∈ ys := by
        rcases List.mem_cons.mp h with h1 | h1
        · exact absurd h1.symm hyx
        · exact h1
      obtain ⟨n, hn, hget, her⟩ := ih hmem
      refine ⟨n + 1, ?_, ?_, ?_⟩
      · have hne : ((n : Int) == -1) = false := by
          rw [beq_eq_false_iff_ne]; omega
        simp only [qIndexOf, hb, hn, hne, Bool.false_eq_true, if_false]
        push_cast
        rfl
      · simpa using hget
      · rw [List.eraseIdx_cons_succ, her, List.erase_cons_tail]
        simpa using hyx

theorem imageMimeFormats_eq (toLower : String → String) (imageFormats : List String) :
    imageMimeFormats toLower imageFormats
      = if "image/png" ∈ imageFormats.map (fun f => "image/" ++ toLower f) then
          "image/png" :: (imageFormats.map (fun f => "image/" ++ toLower f)).erase "image/png"
        else imageFormats.map (fun f => "image/" ++ toLower f) := by
  have hfold := formats_loop toLower imageFormats []
  rw [List.nil_append] at hfold
  unfold imageMimeFormats
  simp only [hfold]
  by_cases hmem : "image/png" ∈ imageFormats.map (fun f => "image/" ++ toLower f)
  · rw [if_pos hmem]
    obtain ⟨n, hn, hget, her⟩ := qIndexOf_of_mem _ _ hmem
    rw [hn]
    have hne : ((n : Int) != -1) = true := by
      rw [bne_iff_ne]; omega
    cases n with
    | zero =>
      simp only [hne, Nat.cast_zero, bne_self_eq_false, Bool.and_false, Bool.false_eq_true,
        if_false]
      rw [← her]
      cases hl : imageFormats.map (fun f => "image/" ++ toLower f) with
      | nil => rw [hl] at hmem; simp at hmem
      | cons a t =>
        rw [hl] at hget
        simp only [List.getElem?_cons_zero, Option.some.injEq] at hget
        rw [hget]; rfl
    | succ m =>
      have hnz : (((m + 1 : ℕ) : Int) != 0) = true := by
        have : ((m + 1 : ℕ) : Int) ≠ 0 := by omega
        simpa using this
      simp only [hne, hnz, Bool.and_self, if_true, qMove, Int.toNat_ofNat, hget,
        List.insertIdx_zero, her]
  · rw [if_neg hmem, qIndexOf_of_not_mem _ _ hmem]
    simp

/-- C9: for every list of codec names, `imageMimeFormats` returns a
permutation of the list of "image/" + lower-cased name; when that list
contains "image/png" the result is "image/png" followed by the list without
its first "image/png", so "image/png" is first and the other entries keep
their relative order; otherwise the result is the list itself. -/
theorem C9_imageMimeFormats_png_first (toLower : String → String)
    (imageFormats : List String) :
    List.Perm (imageMimeFormats toLower imageFormats)
      (imageFormats.map (fun f => "image/" ++ toLower f))
    ∧ ("image/png" ∈ imageFormats.map (fun f => "image/" ++ toLower f) →
        (imageMimeFormats toLower imageFormats).head? = some "image/png"
        ∧ imageMimeFormats toLower imageFormats
          = "image/png"
            :: (imageFormats.map (fun f => "image/" ++ toLower f)).erase "image/png")
    ∧ ("image/png" ∉ imageFormats.map (fun f => "image/" ++ toLower f) →
        imageMimeFormats toLower imageFormats
          = imageFormats.map (fun f => "image/" ++ toLower f)) := by
  rw [imageMimeFormats_eq]
  refine ⟨?_, fun h => ?_, fun h => ?_⟩
  · by_cases h : "image/png" ∈ imageFormats.map (fun f => "image/" ++ toLower f)
    · rw [if_pos h]; exact (List.perm_cons_erase h).symm
    · rw [if_neg h]
  · rw [if_pos h]; exact ⟨rfl, rfl⟩
  · rw [if_neg h]

/-- C9, at the codecs png, bmp and jpeg in each of their six orders. -/
theorem C9_imageMimeFormats_png_first_witness :
    imageMimeFormats asciiToLower ["png", "bmp", "jpeg"]
      = ["image/png", "image/bmp", "image/jpeg"]
    ∧ imageMimeFormats asciiToLower ["png", "jpeg", "bmp"]
      = ["image/png", "image/jpeg", "image/bmp"]
    ∧ imageMimeFormats asciiToLower ["bmp", "png", "jpeg"]
      = ["image/png", "image/bmp", "image/jpeg"]
    ∧ imageMimeFormats asciiToLower ["bmp", "jpeg", "png"]
      = ["image/png", "image/bmp", "image/jpeg"]
    ∧ imageMimeFormats asciiToLower ["jpeg", "png", "bmp"]
      = ["image/png", "image/jpeg", "image/bmp"]
    ∧ imageMimeFormats asciiToLower ["jpeg", "bmp", "png"]
      = ["image/png", "image/jpeg", "image/bmp"] :=
  ⟨((C9_imageMimeFormats_png_first asciiToLower ["png", "bmp", "jpeg"]).2.1
      (by decide)).2.trans (by decide),
   ((C9_imageMimeFormats_png_first asciiToLower ["png", "jpeg", "bmp"]).2.1
      (by decide)).2.trans (by decide),
   ((C9_imageMimeFormats_png_first asciiToLower ["bmp", "png", "jpeg"]).2.1
      (by decide)).2.trans (by decide),
   ((C9_imageMimeFormats_png_first asciiToLower ["bmp", "jpeg", "png"]).2.1
      (by decide)).2.trans (by decide),
   ((C9_imageMimeFormats_png_first asciiToLower ["jpeg", "png", "bmp"]).2.1
      (by decide)).2.trans (by decide),
   ((C9_imageMimeFormats_png_first asciiToLower ["jpeg", "bmp", "png"]).2.1
      (by decide)).2.trans (by decide)⟩


theorem offer_loop (imageFormats offered : List String) :
    imageFormats.foldl (fun offered f => offered ++ [f]) offered
      = offered ++ imageFormats := by
  induction imageFormats generalizing offered with
  | nil => simp
  | cons f fs ih =>
    rw [List.foldl_cons, ih]
    simp only [List.append_assoc, List.singleton_append]

theorem sendOffer_loop (toLower : String → String) (readerFormats : List String)
    (formats offered : List String) :
    formats.foldl
        (fun offered format =>
          if ApplicationXQtImageLiteral == format then
            (imageReadMimeFormats toLower readerFormats).foldl
              (fun offered f => offered ++ [f]) offered
          else offered ++ [format])
        offered
      = offered ++ formats.flatMap (fun format =>
          if format = "application/x-qt-image" then imageMimeFormats toLower readerFormats
          else [format]) := by
  induction formats generalizing offered with
  | nil => simp
  | cons f fs ih =>
    rw [List.foldl_cons, ih, List.flatMap_cons]
    by_cases hf : f = "application/x-qt-image"
    · have hb : (ApplicationXQtImageLiteral == f) = true := by
        rw [hf]; rfl
      rw [if_pos hb, if_pos hf, offer_loop, List.append_assoc]
      rfl
    · have hb : ¬ ((ApplicationXQtImageLiteral == f) = true) := by
        intro h
        exact hf (beq_iff_eq.mp h).symm
      rw [if_neg hb, if_neg hf, List.append_assoc]

theorem sendOffer_eq (toLower : String → String) (readerFormats : List String)
    (bag : QMimeData) :
    sendOffer toLower readerFormats true bag
      = some (bag.formats.flatMap (fun format =>
          if format = "application/x-qt-image" then imageMimeFormats toLower readerFormats
          else [format])) := by
  have h := sendOffer_loop toLower readerFormats bag.formats []
  rw [List.nil_append] at h
  simp only [sendOffer, Bool.not_true, Bool.false_eq_true, if_false, h]

/-- C10, as stated, fails at a bag that holds the generic image placeholder
and "image/png", with the codecs bmp, jpeg and png: "image/png" is advertised
twice. -/
theorem C10_sendOffer_duplicate_counterexample :
    sendOffer asciiToLower ["bmp", "jpeg", "png"] true
        [("application/x-qt-image", QVariant.byteArray [1]),
         ("image/png", QVariant.byteArray [2])]
      = some ["image/png", "image/bmp", "image/jpeg", "image/png"]
    ∧ ¬ (["image/png", "image/bmp", "image/jpeg", "image/png"] : List String).Nodup := by
  decide

/-- C10, amended: when the data source is created, the sequence that
`sendOffer` advertises is, in the order of the formats of the bag, every
format other than "application/x-qt-image" once and, in place of
"application/x-qt-image", the list of `imageReadMimeFormats()`; nothing is
advertised without a data source.  The sequence is not deduplicated: it has
no duplicate when the formats of the bag are distinct, the image formats are
distinct and no image format is also a format of the bag. -/
theorem C10_sendOffer_advertised_sequence (toLower : String → String)
    (readerFormats : List String) (bag : QMimeData) :
    sendOffer toLower readerFormats false bag = none
    ∧ sendOffer toLower readerFormats true bag
      = some (bag.formats.flatMap (fun format =>
          if format = "application/x-qt-image" then imageMimeFormats toLower readerFormats
          else [format]))
    ∧ (∀ x, x ∈ bag.formats.flatMap (fun format =>
          if format = "application/x-qt-image" then imageMimeFormats toLower readerFormats
          else [format])
        ↔ (x ∈ bag.formats ∧ x ≠ "application/x-qt-image")
          ∨ ("application/x-qt-image" ∈ bag.formats
              ∧ x ∈ imageMimeFormats toLower readerFormats))
    ∧ (bag.formats.Nodup → (imageMimeFormats toLower readerFormats).Nodup →
        (∀ x ∈ bag.formats, x ∉ imageMimeFormats toLower readerFormats) →
        (bag.formats.flatMap (fun format =>
          if format = "application/x-qt-image" then imageMimeFormats toLower readerFormats
          else [format])).Nodup) := by
  refine ⟨rfl, sendOffer_eq toLower readerFormats bag, ?_, ?_⟩
  · intro x
    rw [List.mem_flatMap]
    constructor
    · rintro ⟨f, hf, hx⟩
      by_cases hp : f = "application/x-qt-image"
      · rw [if_pos hp] at hx
        exact Or.inr ⟨hp ▸ hf, hx⟩
      · rw [if_neg hp] at hx
        have hxf : x = f := by simpa using hx
        exact Or.inl ⟨hxf ▸ hf, hxf ▸ hp⟩
    · rintro (⟨hx, hne⟩ | ⟨hp, hx⟩)
      · exact ⟨x, hx, by rw [if_neg hne]; simp⟩
      · exact ⟨"application/x-qt-image", hp, by rw [if_pos rfl]; exact hx⟩
  · intro hnd himg hdisj
    rw [List.nodup_flatMap]
    constructor
    · intro f _
      by_cases hp : f = "application/x-qt-image"
      · rw [if_pos hp]; exact himg
      · rw [if_neg hp]; exact List.nodup_singleton f
    · refine List.Pairwise.imp_of_mem ?_ hnd
      intro a b ha hb hab
      show List.Disjoint _ _
      beta_reduce
      by_cases hpa : a = "application/x-qt-image"
      · have hpb : b ≠ "application/x-qt-image" := fun h => hab (hpa.trans h.symm)
        rw [if_pos hpa, if_neg hpb]
        intro x hx1 hx2
        have hxb : x = b := by simpa using hx2
        exact hdisj b hb (hxb ▸ hx1)
      · rw [if_neg hpa]
        by_cases hpb : b = "application/x-qt-image"
        · rw [if_pos hpb]
          intro x hx1 hx2
          have hxa : x = a := by simpa using hx1
          exact hdisj a ha (hxa ▸ hx2)
        · rw [if_neg hpb]
          intro x hx1 hx2
          have hxa : x = a := by simpa using hx1
          have hxb : x = b := by simpa using hx2
          exact hab (hxa.symm.trans hxb)

/-- C10, amended, at a bag with text and the generic image placeholder and
the codecs bmp, jpeg and png: four types are advertised, none twice. -/
theorem C10_sendOffer_advertised_sequence_witness :
    (List.flatMap
      (QMimeData.formats [("text/plain", QVariant.byteArray [104]),
        ("application/x-qt-image", QVariant.byteArray [1])])
      (fun format =>
        if format = "application/x-qt-image" then
          imageMimeFormats asciiToLower ["bmp", "jpeg", "png"]
        else [format])).Nodup :=
  (C10_sendOffer_advertised_sequence asciiToLower ["bmp", "jpeg", "png"]
    [("text/plain", QVariant.byteArray [104]),
      ("application/x-qt-image", QVariant.byteArray [1])]).2.2.2
    (by decide) (by decide) (by decide)


/-! ### The image format that `getByteArray` selects -/

theorem toList_image_append (sub : String) :
    ("image/" ++ sub).toList = ['i', 'm', 'a', 'g', 'e', '/'] ++ sub.toList := by
  show ("image/" ++ sub).data = _
  rw [String.data_append]
  rfl

theorem startsWith_image_append (sub : String) :
    startsWith ("image/" ++ sub) "image/" = true := by
  unfold startsWith
  rw [toList_image_append]
  have hp : ("image/" : String).toList = ['i', 'm', 'a', 'g', 'e', '/'] := rfl
  rw [hp, List.isPrefixOf_iff_prefix]
  exact List.prefix_append _ _

theorem mid6_image_append (sub : String) : mid6 ("image/" ++ sub) = sub := by
  unfold mid6
  rw [toList_image_append]
  rfl

theorem image_append_ne_text_plain (sub : String) :
    ("image/" ++ sub == "text/plain") = false := by
  rw [beq_eq_false_iff_ne]
  intro h
  have h2 := congrArg String.toList h
  rw [toList_image_append] at h2
  have h3 : ("text/plain" : String).toList
      = ['t', 'e', 'x', 't', '/', 'p', 'l', 'a', 'i', 'n'] := rfl
  rw [h3] at h2
  simp at h2

/-- The image branch of `getByteArray` for a request "image/<sub>": the
format handed to the writer is the upper-cased sub-format when the codec set
contains that upper-cased name, and "BMP" otherwise. -/
theorem getByteArray_image_sub (toUpper : String → String)
    (toEncoded : QUrl → QByteArray) (writerFormats : List QByteArray)
    (imageWrite : QImage → QByteArray → QByteArray) (mimeData : MimeDataView)
    (w h : Nat) (pixels : List UInt8) (sub : String) :
    getByteArray toUpper toEncoded writerFormats imageWrite
        { mimeData with hasImage := true, imageData := QVariant.image ⟨w + 1, h + 1, pixels⟩ }
        ("image/" ++ sub)
      = imageWrite ⟨w + 1, h + 1, pixels⟩
          (if writerFormats.contains (toLatin1 (toUpper sub)) then toLatin1 (toUpper sub)
            else toLatin1 "BMP") := by
  have hnull : QImage.isNull ⟨w + 1, h + 1, pixels⟩ = false := by
    simp [QImage.isNull]
  simp only [getByteArray, image_append_ne_text_plain, startsWith_image_append,
    mid6_image_append, castImage, hnull, Bool.or_true, Bool.and_self, Bool.not_false,
    Bool.false_eq_true, if_false, if_true]

/-- The image branch of `getByteArray` for the generic image placeholder: the
format handed to the writer is "BMP". -/
theorem getByteArray_image_generic (toUpper : String → String)
    (toEncoded : QUrl → QByteArray) (writerFormats : List QByteArray)
    (imageWrite : QImage → QByteArray → QByteArray) (mimeData : MimeDataView)
    (w h : Nat) (pixels : List UInt8) :
    getByteArray toUpper toEncoded writerFormats imageWrite
        { mimeData with hasImage := true, imageData := QVariant.image ⟨w + 1, h + 1, pixels⟩ }
        "application/x-qt-image"
      = imageWrite ⟨w + 1, h + 1, pixels⟩ (toLatin1 "BMP") := by
  have hnull : QImage.isNull ⟨w + 1, h + 1, pixels⟩ = false := by
    simp [QImage.isNull]
  have h1 : ("application/x-qt-image" == "text/plain") = false := by decide
  have h3 : startsWith "application/x-qt-image" "image/" = false := by decide
  simp only [getByteArray, h1, h3, castImage, hnull, beq_self_eq_true, Bool.or_false,
    Bool.and_self, Bool.not_false, Bool.false_eq_true, if_false, if_true]

/-- C11, on the code: for a bag with a non-null image and a request
"image/<sub>", `getByteArray` looks the upper-cased sub-format up in the codec
set and hands the writer that upper-cased name when it is found, "BMP"
otherwise; the generic placeholder gets "BMP".  With the codec set png, bmp,
jpeg, named in lower case, the request "image/png" is looked up as "PNG", is
not found, and selects "BMP", not PNG; a writer that outputs the name of its
format then outputs the bytes of "BMP".  With the codec names in upper case
the same request selects "PNG". -/
theorem C11_image_png_request_selects_bmp :
    (∀ (toUpper : String → String) (toEncoded : QUrl → QByteArray)
        (writerFormats : List QByteArray)
        (imageWrite : QImage → QByteArray → QByteArray) (mimeData : MimeDataView)
        (w h : Nat) (pixels : List UInt8) (sub : String),
      getByteArray toUpper toEncoded writerFormats imageWrite
          { mimeData with
            hasImage := true, imageData := QVariant.image ⟨w + 1, h + 1, pixels⟩ }
          ("image/" ++ sub)
        = imageWrite ⟨w + 1, h + 1, pixels⟩
            (if writerFormats.contains (toLatin1 (toUpper sub)) then
              toLatin1 (toUpper sub)
            else toLatin1 "BMP"))
    ∧ (∀ (toUpper : String → String) (toEncoded : QUrl → QByteArray)
        (writerFormats : List QByteArray)
        (imageWrite : QImage → QByteArray → QByteArray) (mimeData : MimeDataView)
        (w h : Nat) (pixels : List UInt8),
      getByteArray toUpper toEncoded writerFormats imageWrite
          { mimeData with
            hasImage := true, imageData := QVariant.image ⟨w + 1, h + 1, pixels⟩ }
          "application/x-qt-image"
        = imageWrite ⟨w + 1, h + 1, pixels⟩ (toLatin1 "BMP"))
    ∧ (∀ (imageWrite : QImage → QByteArray → QByteArray) (mimeData : MimeDataView)
        (w h : Nat) (pixels : List UInt8),
      getByteArray asciiToUpper toLatin1
          [toLatin1 "png", toLatin1 "bmp", toLatin1 "jpeg"] imageWrite
          { mimeData with
            hasImage := true, imageData := QVariant.image ⟨w + 1, h + 1, pixels⟩ }
          "image/png"
        = imageWrite ⟨w + 1, h + 1, pixels⟩ (toLatin1 "BMP"))
    ∧ getByteArray asciiToUpper toLatin1
          [toLatin1 "png", toLatin1 "bmp", toLatin1 "jpeg"] (fun _ fmt => fmt)
          ⟨"", true, QVariant.image ⟨1, 1, [0]⟩, QVariant.invalid, [], fun _ => []⟩
          "image/png"
        = [66, 77, 80]
    ∧ getByteArray asciiToUpper toLatin1
          [toLatin1 "PNG", toLatin1 "BMP", toLatin1 "JPEG"] (fun _ fmt => fmt)
          ⟨"", true, QVariant.image ⟨1, 1, [0]⟩, QVariant.invalid, [], fun _ => []⟩
          "image/png"
        = toLatin1 "PNG" := by
  have e : ("image/png" : String) = "image/" ++ "png" := by decide
  refine ⟨getByteArray_image_sub, getByteArray_image_generic, ?_, by decide, by decide⟩
  intro imageWrite mimeData w h pixels
  rw [e, getByteArray_image_sub, if_neg (by decide)]

end DdeClipboard
